import Mathlib

/-!
# polcrawl: a shallow embedding of `main.go`

The Go program dials a websocket feed, sends one subscribe command per configured
currency pair and decodes the inbound frames.  This file embeds the functions of
`main.go` as executable Lean definitions and proves properties about them.

Conventions of the embedding

* A Go `string` or `[]byte` is a sequence of bytes; it is modelled as `List Char`,
  one `Char` per byte.  The program only compares bytes with `_` and with the double
  quote and slices by index, so nothing depends on the alphabet.
* A Go `int` is the 64-bit `int` of the platforms the program is built for; values are
  `Int`/`Nat` with the bounds `2^63` and `2^64` written out where they matter.
* A run-time panic (index or slice bounds out of range) is a result of its own:
  `none` in `Option`-valued functions, `Result.panicked` for `parseMsg`.
* A call that never returns, because it waits for a message that does not come, is a
  result of its own as well: `Outcome.blocked`.
* A JSON text is given by its syntax tree, which keeps the spelling of every literal and
  all white space, so that the bytes of the text can be read off the tree.
* Calls into the Go standard library (`strings`, `strconv`, `encoding/json`) are modelled
  by definitions in namespaces named after the package.
-/

namespace Polcrawl

/-- A Go `string` / `[]byte`: a sequence of bytes, one `Char` per byte. -/
abbrev GoString := List Char

/-- The double-quote byte, written `'"'` in the source. -/
def dquote : Char := Char.ofNat 34

/-! ## Package `strings` -/

namespace strings

/-- The call `strings.Split(s, sep)` for a one-byte separator: the pieces of `s` between
the occurrences of `sep`; one piece more than there are separators, so at least one. -/
def Split (s : GoString) (sep : Char) : List GoString :=
  match s with
  | [] => [[]]
  | c :: cs =>
    if c = sep then [] :: Split cs sep
    else
      match Split cs sep with
      | [] => [[c]]
      | piece :: pieces => (c :: piece) :: pieces

/-- The call `strings.Join(elems, sep)`: the elements with `sep` between neighbours. -/
def Join (elems : List GoString) (sep : GoString) : GoString :=
  match elems with
  | [] => []
  | [a] => a
  | a :: b :: rest => a ++ sep ++ Join (b :: rest) sep

end strings

/-! ## Package `strconv` -/

namespace strconv

/-- The two causes a `*strconv.NumError` can carry. -/
inductive NumError where
  | ErrSyntax
  | ErrRange
  deriving DecidableEq, Repr

/-- The constant `strconv.IntSize` on a 64-bit platform. -/
def intSize : Nat := 64

/-- The largest `uint64`. -/
def maxUint64 : Nat := 2 ^ 64 - 1

/-- A decimal digit byte, `'0' <= c && c <= '9'`. -/
def isDigit (c : Char) : Bool := decide (48 ≤ c.toNat) && decide (c.toNat ≤ 57)

/-- The value `c - '0'` of a digit byte. -/
def digitVal (c : Char) : Nat := c.toNat - 48

/-- The digit loop of `ParseUint(s, 10, 0)`; `n` is the `uint64` accumulated so far.
A byte that is not a decimal digit is a syntax error (value 0); a digit that would take
the value past `maxUint64` is a range error (value `maxUint64`), returned at once. -/
def parseUintLoop (s : GoString) (n : Nat) : Nat × Option NumError :=
  match s with
  | [] => (n, none)
  | c :: cs =>
    if !isDigit c then (0, some .ErrSyntax)
    else if n ≥ maxUint64 / 10 + 1 then (maxUint64, some .ErrRange)
    else
      let n10 := (n * 10) % 2 ^ 64
      let n1 := (n10 + digitVal c) % 2 ^ 64
      if n1 < n10 ∨ n1 > maxUint64 then (maxUint64, some .ErrRange)
      else parseUintLoop cs n1

/-- The call `strconv.ParseUint(s, 10, 0)`. -/
def ParseUint (s : GoString) : Nat × Option NumError :=
  if s = [] then (0, some .ErrSyntax) else parseUintLoop s 0

/-- The call `strconv.ParseInt(s, 10, 0)`: an optional sign, then `ParseUint`; a syntax
error gives 0, a magnitude outside the `int64` range gives the nearest bound with a
range error. -/
def ParseInt (s : GoString) : Int × Option NumError :=
  match s with
  | [] => (0, some .ErrSyntax)
  | c :: cs =>
    let neg : Bool := c = '-'
    let digits : GoString := if c = '+' ∨ c = '-' then cs else c :: cs
    let (un, err) := ParseUint digits
    if err = some .ErrSyntax then (0, err)
    else
      let cutoff : Nat := 2 ^ (intSize - 1)
      if !neg ∧ un ≥ cutoff then (((cutoff - 1 : Nat) : Int), some .ErrRange)
      else if neg ∧ un > cutoff then (-(cutoff : Int), some .ErrRange)
      else (if neg then -(un : Int) else (un : Int), none)

/-- The fast-path loop of `Atoi`: `n = n*10 + int(ch - '0')`, a syntax error on the first
byte that is not a digit. -/
def atoiLoop (s : GoString) (n : Int) : Option Int :=
  match s with
  | [] => some n
  | c :: cs => if !isDigit c then none else atoiLoop cs (n * 10 + (digitVal c : Int))

/-- The call `strconv.Atoi(s)`: the fast path for 1 to 18 bytes (which cannot overflow),
`ParseInt(s, 10, 0)` otherwise. -/
def Atoi (s : GoString) : Int × Option NumError :=
  match s with
  | [] => ParseInt s
  | c :: cs =>
    if s.length < 19 then
      let digits : GoString := if c = '-' ∨ c = '+' then cs else c :: cs
      if (c = '-' ∨ c = '+') ∧ digits.length < 1 then (0, some .ErrSyntax)
      else
        match atoiLoop digits 0 with
        | none => (0, some .ErrSyntax)
        | some n => (if c = '-' then -n else n, none)
    else ParseInt s

end strconv

/-! ## Value coercion: `jsByteToStr`, `byteToInt` -/

/-- The slice expression `val[first:last]`: `none` is the panic "slice bounds out of
range", raised unless `0 <= first <= last <= len(val)`.  (Go checks `last` against the
capacity; `jsByteToStr` only ever asks for `last < len(val)`.) -/
def goSlice (val : GoString) (first last : Int) : Option GoString :=
  if 0 ≤ first ∧ first ≤ last ∧ last ≤ (val.length : Int) then
    some ((val.drop first.toNat).take (last.toNat - first.toNat))
  else none

/-- The function `jsByteToStr` (main.go 167-180). -/
def jsByteToStr (val : GoString) : Option GoString :=
  if val.length = 0 then some []
  else
    let first : Int := 0
    let last : Int := (val.length : Int) - 1
    let first : Int := if val.head? = some dquote then 1 else first
    let last : Int := if val.get? last.toNat = some dquote then last - 1 else last
    goSlice val first last

/-- The values of `first` and `last` with which a non-empty token reaches the slice
expression of `jsByteToStr` (lines 171-178). -/
def jsBounds (val : GoString) : Int × Int :=
  let first : Int := 0
  let last : Int := (val.length : Int) - 1
  let first : Int := if val.head? = some dquote then 1 else first
  let last : Int := if val.get? last.toNat = some dquote then last - 1 else last
  (first, last)

/-- The function `byteToInt` (main.go 182-185): the value `strconv.Atoi` returns, its
error discarded. -/
def byteToInt (val : GoString) : Option Int :=
  (jsByteToStr val).map fun s => (strconv.Atoi s).1

/-- The inner text of a token in the words of the specification (section 4.2): the token
without its surrounding quotes, at most one leading and at most one trailing double
quote removed.  It is used to state what the specification asks of `jsByteToStr` and
`byteToInt`; the program does not compute it. -/
def innerText (token : GoString) : GoString :=
  let t := if token.head? = some dquote then token.tail else token
  if t.getLast? = some dquote then t.dropLast else t

/-! ## Errors and log lines -/

/-- The `error` values the program handles. -/
inductive GoError where
  /-- The value `errors.New(msg)`. -/
  | text (msg : GoString)
  /-- A `*json.UnmarshalTypeError`; `value` is its `Value` field ("number", "string", ...). -/
  | unmarshalType (value : GoString)
  /-- An error of the websocket connection (failed dial, write or read). -/
  | network (code : Nat)
  /-- The value `context.DeadlineExceeded`, which `ctx.Err()` is once the timeout has passed. -/
  | deadlineExceeded
  /-- A `*json.SyntaxError`: the bytes handed to `json.Unmarshal` are not one JSON value. -/
  | syntaxError
  deriving DecidableEq, Repr

/-- The lines the program writes with the `log` package, one constructor per call site. -/
inductive LogEntry where
  /-- Line 43: `log.Println(err)` after a failed dial. -/
  | dialError (err : GoError)
  /-- Line 195: `log.Printf("parse error: %s", err)`. -/
  | parseError (err : GoError)
  /-- Line 133: `log.Printf("can not unmarshal %s\n", v[0])`. -/
  | cannotUnmarshal (v0 : GoString)
  /-- Lines 142 and 145 of case "i": `log.Println(err)` or `log.Println(content)`, whichever
  the decoding of `v[1]` into `Content` leads to; `v1` is the text of `v[1]`. -/
  | snapshot (v1 : GoString)
  /-- Line 151: `log.Println(tradeType, price, size, epochMs)`. -/
  | order (tradeType price size epochMs : GoString)
  /-- Line 159: `log.Println(tradeId, tradeType, price, size, timestamp, epochMs)`. -/
  | trade (tradeId : Int) (tradeType price size timestamp epochMs : GoString)
  /-- Line 161: `log.Printf("unknown type %s\n", v[0])`. -/
  | unknownType (v0 : GoString)
  deriving DecidableEq, Repr

/-! ## Package `unicode/utf8` -/

namespace utf8

/-- The call `utf8.EncodeRune(p, r)`: the bytes of the rune `r`; a surrogate or a value
past U+10FFFF is written as U+FFFD. -/
def EncodeRune (r : Nat) : GoString :=
  if r < 128 then [Char.ofNat r]
  else if r < 2048 then [Char.ofNat (192 + r / 64), Char.ofNat (128 + r % 64)]
  else if r > 1114111 ∨ (55296 ≤ r ∧ r ≤ 57343) then
    [Char.ofNat 239, Char.ofNat 191, Char.ofNat 189]
  else if r < 65536 then
    [Char.ofNat (224 + r / 4096), Char.ofNat (128 + r / 64 % 64), Char.ofNat (128 + r % 64)]
  else
    [Char.ofNat (240 + r / 262144), Char.ofNat (128 + r / 4096 % 64),
      Char.ofNat (128 + r / 64 % 64), Char.ofNat (128 + r % 64)]

/-- A continuation byte, `0x80 <= b <= 0xBF`. -/
def isCont (b : Char) : Bool := decide (128 ≤ b.toNat) && decide (b.toNat ≤ 191)

/-- The size `utf8.DecodeRune` reports for a well-formed sequence of 2 to 4 bytes at the
head of `p`; 0 stands for the answer `(RuneError, 1)` on a byte that starts no
well-formed sequence.  The head byte is taken to be at least `0x80`. -/
def seqSize (p : GoString) : Nat :=
  match p with
  | [] => 0
  | p0 :: rest =>
    let n := p0.toNat
    if 194 ≤ n ∧ n ≤ 223 then
      match rest with
      | b1 :: _ => if isCont b1 then 2 else 0
      | _ => 0
    else if 224 ≤ n ∧ n ≤ 239 then
      match rest with
      | b1 :: b2 :: _ =>
        let lo := if n = 224 then 160 else 128
        let hi := if n = 237 then 159 else 191
        if decide (lo ≤ b1.toNat) && decide (b1.toNat ≤ hi) && isCont b2 then 3 else 0
      | _ => 0
    else if 240 ≤ n ∧ n ≤ 244 then
      match rest with
      | b1 :: b2 :: b3 :: _ =>
        let lo := if n = 240 then 144 else 128
        let hi := if n = 244 then 143 else 191
        if decide (lo ≤ b1.toNat) && decide (b1.toNat ≤ hi) && isCont b2 && isCont b3 then 4
        else 0
      | _ => 0
    else 0

end utf8

/-! ## Package `encoding/json` -/

/-- The backslash byte. -/
def backslash : Char := Char.ofNat 92

/-- The syntax tree of one JSON value together with its spelling: a tree stands for
exactly the bytes `JSON.raw` gives.  A number keeps its literal text and a string the
text between its quotes, escape sequences undecoded.  The constructors `array` and
`object` are the spellings with no white space of their own; `spaced` puts white space
before and after a value (an element, the value of a member, the whole frame),
`emptyArray` and `emptyObject` are `[` and `]`, or the two braces, with white space between
them, and `objectSpaced` is an object whose members have white space before and after
their keys.  Every JSON text is the `raw` of such a tree. -/
inductive JSON where
  | null : JSON
  | bool (b : Bool) : JSON
  | number (lit : GoString) : JSON
  | string (s : GoString) : JSON
  | array (elems : List JSON) : JSON
  | object (members : List (GoString × JSON)) : JSON
  | spaced (before : GoString) (v : JSON) (after : GoString) : JSON
  | emptyArray (space : GoString) : JSON
  | emptyObject (space : GoString) : JSON
  | objectSpaced (members : List (GoString × GoString × GoString × JSON)) : JSON

/-- A `json.RawMessage`: the bytes of one JSON value, kept undecoded.  The model keeps the
value's syntax tree; `JSON.raw` gives the bytes. -/
abbrev RawMessage := JSON

mutual
/-- The bytes of a JSON value. -/
def JSON.raw : JSON → GoString
  | .null => "null".toList
  | .bool true => "true".toList
  | .bool false => "false".toList
  | .number lit => lit
  | .string s => dquote :: s ++ [dquote]
  | .array elems => '[' :: JSON.rawElems elems ++ [']']
  | .object members => (Char.ofNat 123) :: JSON.rawMembers members ++ [Char.ofNat 125]
  | .spaced before v after => before ++ v.raw ++ after
  | .emptyArray space => '[' :: space ++ [']']
  | .emptyObject space => (Char.ofNat 123) :: space ++ [Char.ofNat 125]
  | .objectSpaced members =>
    (Char.ofNat 123) :: JSON.rawSpacedMembers members ++ [Char.ofNat 125]
/-- The elements of an array, comma separated. -/
def JSON.rawElems : List JSON → GoString
  | [] => []
  | [e] => e.raw
  | e :: es => e.raw ++ ',' :: JSON.rawElems es
/-- The members of an object, comma separated. -/
def JSON.rawMembers : List (GoString × JSON) → GoString
  | [] => []
  | [(k, e)] => dquote :: k ++ dquote :: ':' :: e.raw
  | (k, e) :: ms => dquote :: k ++ dquote :: ':' :: e.raw ++ ',' :: JSON.rawMembers ms
/-- The members of an object with white space `b` before and `a` after each key. -/
def JSON.rawSpacedMembers : List (GoString × GoString × GoString × JSON) → GoString
  | [] => []
  | [(b, k, a, e)] => b ++ dquote :: k ++ dquote :: a ++ ':' :: e.raw
  | (b, k, a, e) :: ms =>
    b ++ dquote :: k ++ dquote :: a ++ ':' :: e.raw ++ ',' :: JSON.rawSpacedMembers ms
end

/-- The value without the white space around it: what the decoder sees of an element, and
the bytes a `json.RawMessage` receives. -/
def JSON.trim : JSON → JSON
  | .spaced _ v _ => v.trim
  | v => v

/-- The elements of a value that is an array, in any spelling. -/
def JSON.arrayElems (v : JSON) : Option (List JSON) :=
  match v.trim with
  | .array elems => some elems
  | .emptyArray _ => some []
  | _ => none

mutual
/-- How deep arrays and objects are nested in a value; a scalar has depth 0. -/
def JSON.depth : JSON → Nat
  | .array elems => JSON.depthElems elems + 1
  | .object members => JSON.depthMembers members + 1
  | .spaced _ v _ => v.depth
  | .emptyArray _ => 1
  | .emptyObject _ => 1
  | .objectSpaced members => JSON.depthSpacedMembers members + 1
  | _ => 0
/-- The largest depth among the elements of an array. -/
def JSON.depthElems : List JSON → Nat
  | [] => 0
  | e :: es => max e.depth (JSON.depthElems es)
/-- The largest depth among the values of the members of an object. -/
def JSON.depthMembers : List (GoString × JSON) → Nat
  | [] => 0
  | (_, e) :: ms => max e.depth (JSON.depthMembers ms)
/-- The largest depth among the values of the members of an object. -/
def JSON.depthSpacedMembers : List (GoString × GoString × GoString × JSON) → Nat
  | [] => 0
  | (_, _, _, e) :: ms => max e.depth (JSON.depthSpacedMembers ms)
end

namespace json

/-- The white space of JSON: space, tab, carriage return, line feed. -/
def isSpace (c : Char) : Bool :=
  c = ' ' || c = Char.ofNat 9 || c = Char.ofNat 13 || c = Char.ofNat 10

/-- A hexadecimal digit. -/
def isHex (c : Char) : Bool :=
  (decide (48 ≤ c.toNat) && decide (c.toNat ≤ 57)) ||
    (decide (97 ≤ c.toNat) && decide (c.toNat ≤ 102)) ||
    (decide (65 ≤ c.toNat) && decide (c.toNat ≤ 70))

/-- The value of a hexadecimal digit. -/
def hexVal (c : Char) : Nat :=
  if c.toNat ≤ 57 then c.toNat - 48
  else if 97 ≤ c.toNat then c.toNat - 87
  else c.toNat - 55

/-- The function `getu4` on the four bytes after `\u`: their value as a hexadecimal
number, `none` if one of them is not a hexadecimal digit. -/
def getu4 (h1 h2 h3 h4 : Char) : Option Nat :=
  if isHex h1 && isHex h2 && isHex h3 && isHex h4 then
    some (((hexVal h1 * 16 + hexVal h2) * 16 + hexVal h3) * 16 + hexVal h4)
  else none

/-- The exponent part of a number literal, or nothing. -/
def validExp (r : GoString) : Bool :=
  match r with
  | [] => true
  | e :: r1 =>
    (e = 'e' || e = 'E') &&
      (match r1 with
        | [] => false
        | s :: r2 =>
          if s = '+' ∨ s = '-' then !r2.isEmpty && r2.all strconv.isDigit
          else (s :: r2).all strconv.isDigit)

/-- The fraction and exponent parts of a number literal, or nothing. -/
def validFrac (r : GoString) : Bool :=
  match r with
  | [] => true
  | c :: r1 =>
    if c = '.' then
      match r1 with
      | [] => false
      | d :: r2 => strconv.isDigit d && validExp (r2.dropWhile strconv.isDigit)
    else validExp (c :: r1)

/-- The number literals the scanner of `encoding/json` accepts: an optional minus sign,
`0` or a digit from 1 to 9 followed by digits, an optional fraction, an optional
exponent. -/
def validNumber (lit : GoString) : Bool :=
  let body : GoString :=
    match lit with
    | [] => []
    | c :: r => if c = '-' then r else c :: r
  match body with
  | [] => false
  | c :: r =>
    if c = '0' then validFrac r
    else if decide (49 ≤ c.toNat) && decide (c.toNat ≤ 57) then
      validFrac (r.dropWhile strconv.isDigit)
    else false

/-- The texts the scanner accepts between the quotes of a string: no double quote and no
byte below `0x20`; a backslash is followed by one of the eight escape letters or by `u`
and four hexadecimal digits. -/
def validString : GoString → Bool
  | [] => true
  | c :: r =>
    if c = backslash then
      match r with
      | [] => false
      | e :: r1 =>
        if e = 'u' then
          match r1 with
          | h1 :: h2 :: h3 :: h4 :: r2 =>
            isHex h1 && isHex h2 && isHex h3 && isHex h4 && validString r2
          | _ => false
        else
          (e = dquote || e = backslash || e = '/' || e = 'b' || e = 'f' || e = 'n' ||
            e = 'r' || e = 't') && validString r1
    else c != dquote && decide (32 ≤ c.toNat) && validString r

/-- The byte a one-letter escape stands for in `unquoteBytes`. -/
def simpleEscape (e : Char) : Option Char :=
  if e = dquote ∨ e = backslash ∨ e = '/' ∨ e = Char.ofNat 39 then some e
  else if e = 'b' then some (Char.ofNat 8)
  else if e = 'f' then some (Char.ofNat 12)
  else if e = 'n' then some (Char.ofNat 10)
  else if e = 'r' then some (Char.ofNat 13)
  else if e = 't' then some (Char.ofNat 9)
  else none

/-- The function `unquoteBytes` of `encoding/json` on the text between the quotes of a
string literal: the decoded string, `none` where `unquoteBytes` answers `ok = false`.
Escape sequences are decoded, `\uXXXX` into the UTF-8 bytes of the rune (two escapes that
form a surrogate pair into one rune, a lone surrogate into U+FFFD), ASCII bytes are copied,
and a byte from `0x80` on is copied with its well-formed UTF-8 sequence or else replaced
by U+FFFD. -/
def unquote : GoString → Option GoString
  | [] => some []
  | c :: r =>
    if c = backslash then
      match r with
      | [] => none
      | e :: r1 =>
        if e = 'u' then
          match r1 with
          | h1 :: h2 :: h3 :: h4 :: r2 =>
            match getu4 h1 h2 h3 h4 with
            | none => none
            | some rr =>
              let plain := unquote r2
              if 55296 ≤ rr ∧ rr < 57344 then
                match r2 with
                | b :: u :: g1 :: g2 :: g3 :: g4 :: r3 =>
                  match getu4 g1 g2 g3 g4 with
                  | some rr1 =>
                    if b = backslash ∧ u = 'u' ∧ rr < 56320 ∧ 56320 ≤ rr1 ∧ rr1 < 57344 then
                      (unquote r3).map fun t =>
                        utf8.EncodeRune ((rr - 55296) * 1024 + (rr1 - 56320) + 65536) ++ t
                    else plain.map fun t => utf8.EncodeRune 65533 ++ t
                  | none => plain.map fun t => utf8.EncodeRune 65533 ++ t
                | _ => plain.map fun t => utf8.EncodeRune 65533 ++ t
              else plain.map fun t => utf8.EncodeRune rr ++ t
          | _ => none
        else
          match simpleEscape e with
          | none => none
          | some b => (unquote r1).map fun t => b :: t
    else if c = dquote ∨ c.toNat < 32 then none
    else if c.toNat < 128 then (unquote r).map fun t => c :: t
    else
      let replaced := (unquote r).map fun t => utf8.EncodeRune 65533 ++ t
      let size := utf8.seqSize (c :: r)
      match r with
      | b1 :: r1 =>
        if size = 2 then (unquote r1).map fun t => c :: b1 :: t
        else
          match r1 with
          | b2 :: r2 =>
            if size = 3 then (unquote r2).map fun t => c :: b1 :: b2 :: t
            else
              match r2 with
              | b3 :: r3 =>
                if size = 4 then (unquote r3).map fun t => c :: b1 :: b2 :: b3 :: t
                else replaced
              | [] => replaced
          | [] => replaced
      | [] => replaced

end json

mutual
/-- The grammar of JSON on a tree: number and string literals as the scanner accepts
them, white space made of white space bytes. -/
def JSON.wellFormed : JSON → Bool
  | .null => true
  | .bool _ => true
  | .number lit => json.validNumber lit
  | .string s => json.validString s
  | .array elems => JSON.wellFormedElems elems
  | .object members => JSON.wellFormedMembers members
  | .spaced before v after => before.all json.isSpace && v.wellFormed && after.all json.isSpace
  | .emptyArray space => space.all json.isSpace
  | .emptyObject space => space.all json.isSpace
  | .objectSpaced members => JSON.wellFormedSpacedMembers members
/-- Every element is well formed. -/
def JSON.wellFormedElems : List JSON → Bool
  | [] => true
  | e :: es => e.wellFormed && JSON.wellFormedElems es
/-- Every key and value is well formed. -/
def JSON.wellFormedMembers : List (GoString × JSON) → Bool
  | [] => true
  | (k, e) :: ms => json.validString k && e.wellFormed && JSON.wellFormedMembers ms
/-- Every key, value and stretch of white space is well formed. -/
def JSON.wellFormedSpacedMembers : List (GoString × GoString × GoString × JSON) → Bool
  | [] => true
  | (b, k, a, e) :: ms =>
    b.all json.isSpace && json.validString k && a.all json.isSpace && e.wellFormed &&
      JSON.wellFormedSpacedMembers ms
end

/-- The bytes `raw` of the tree are one JSON value for `json.Unmarshal`, whose first step
is the scanner: the grammar holds and arrays and objects are nested at most 10000 deep. -/
def JSON.valid (v : JSON) : Bool := v.wellFormed && decide (v.depth ≤ 10000)

namespace strconv

/-- The number a string of decimal digits spells. -/
def natOfDigits (ds : GoString) : Nat := ds.foldl (fun n c => n * 10 + digitVal c) 0

/-- The exponent loop of `readFloat`, `if e < 10000 { e = e*10 + int(s[i]) - '0' }`: the
number the digits spell, except that digits are no longer taken in once the value has
reached 10000. -/
def expOfDigits (ds : GoString) : Nat :=
  ds.foldl (fun e c => if e < 10000 then e * 10 + digitVal c else e) 0

/-- The least magnitude that rounds to infinity as a `float64`: half an ulp above the
largest finite value `2^1024 - 2^971`. -/
def float64Overflow : Nat := 2 ^ 1024 - 2 ^ 970

/-- Whether `strconv.ParseFloat(s, 64)` returns a range error on the JSON number literal
`s`.  `ParseFloat` rounds to the nearest `float64`, so the error is raised exactly when
the number read, `digits * 10^exponent` once the fraction is folded into the exponent,
is `float64Overflow` or more in magnitude.  (A value too small for a `float64` rounds to
zero without an error.) -/
def ParseFloatRange (s : GoString) : Bool :=
  let body : GoString :=
    match s with
    | [] => []
    | c :: r => if c = '-' then r else c :: r
  let intDigits := body.takeWhile isDigit
  let afterInt := body.dropWhile isDigit
  let fracDigits : GoString :=
    match afterInt with
    | [] => []
    | c :: r => if c = '.' then r.takeWhile isDigit else []
  let afterFrac : GoString :=
    match afterInt with
    | [] => []
    | c :: r => if c = '.' then r.dropWhile isDigit else c :: r
  let exponent : Int :=
    match afterFrac with
    | [] => 0
    | _ :: r =>
      match r with
      | [] => 0
      | sign :: ds =>
        if sign = '-' then -(expOfDigits ds : Int)
        else if sign = '+' then (expOfDigits ds : Int)
        else (expOfDigits (sign :: ds) : Int)
  let digits := natOfDigits (intDigits ++ fracDigits)
  let exp10 : Int := exponent - (fracDigits.length : Int)
  if 0 ≤ exp10 then decide (float64Overflow ≤ digits * 10 ^ exp10.toNat)
  else decide (float64Overflow * 10 ^ (-exp10).toNat ≤ digits)

end strconv

mutual
/-- The first number literal of a value, in the order of the text, that does not fit a
`float64`: decoding the value into an `interface{}` stores every number as a `float64`
and fails on such a literal, and on nothing else. -/
def JSON.firstOverflow : JSON → Option GoString
  | .number lit => if strconv.ParseFloatRange lit then some lit else none
  | .array elems => JSON.firstOverflowElems elems
  | .object members => JSON.firstOverflowMembers members
  | .spaced _ v _ => v.firstOverflow
  | .objectSpaced members => JSON.firstOverflowSpacedMembers members
  | _ => none
/-- The first such literal among the elements of an array. -/
def JSON.firstOverflowElems : List JSON → Option GoString
  | [] => none
  | e :: es =>
    match e.firstOverflow with
    | some lit => some lit
    | none => JSON.firstOverflowElems es
/-- The first such literal among the values of the members of an object. -/
def JSON.firstOverflowMembers : List (GoString × JSON) → Option GoString
  | [] => none
  | (_, e) :: ms =>
    match e.firstOverflow with
    | some lit => some lit
    | none => JSON.firstOverflowMembers ms
/-- The first such literal among the values of the members of an object. -/
def JSON.firstOverflowSpacedMembers :
    List (GoString × GoString × GoString × JSON) → Option GoString
  | [] => none
  | (_, _, _, e) :: ms =>
    match e.firstOverflow with
    | some lit => some lit
    | none => JSON.firstOverflowSpacedMembers ms
end

namespace json

/-- The `Value` field of the `UnmarshalTypeError` raised when a JSON value of this kind
meets a Go variable that cannot hold it.  (The last case does not arise: `trim` never
yields `spaced`.) -/
def kindName (v : JSON) : GoString :=
  match v.trim with
  | .null => "null".toList
  | .bool _ => "bool".toList
  | .number _ => "number".toList
  | .string _ => "string".toList
  | .array _ => "array".toList
  | .emptyArray _ => "array".toList
  | .object _ => "object".toList
  | .emptyObject _ => "object".toList
  | .objectSpaced _ => "object".toList
  | .spaced _ _ _ => []

/-- Decoding a JSON value into an `int` or `int64` variable holding `old`: `null` leaves
the variable alone, a number literal is read with `strconv.ParseInt(lit, 10, 64)`, and
every other value, as well as a literal `ParseInt` rejects, is an `UnmarshalTypeError`. -/
def unmarshalInt (v : JSON) (old : Int) : Except GoError Int :=
  match v.trim with
  | .null => .ok old
  | .number lit =>
    match strconv.ParseInt lit with
    | (n, none) => .ok n
    | (_, some _) => .error (.unmarshalType ("number ".toList ++ lit))
  | _ => .error (.unmarshalType (kindName v))

/-- The call `json.Unmarshal(v, &msgType)` for a fresh `var msgType string`: a string
gives its decoded value, `null` leaves the empty string, anything else is an
`UnmarshalTypeError` (and `msgType` stays empty). -/
def unmarshalString (v : RawMessage) : Except GoError GoString :=
  match v.trim with
  | .null => .ok []
  | .string s =>
    match unquote s with
    | some msgType => .ok msgType
    | none => .error .syntaxError
  | _ => .error (.unmarshalType (kindName v))

/-- Decoding one element of the third slot into a `[]json.RawMessage`: an array gives
its elements undecoded, each with the bytes of the value and none of the white space
around it; `null` gives the nil slice, anything else is an `UnmarshalTypeError`. -/
def unmarshalRecord (v : JSON) : Except GoError (List RawMessage) :=
  match v.trim with
  | .null => .ok []
  | .array elems => .ok (elems.map JSON.trim)
  | .emptyArray _ => .ok []
  | _ => .error (.unmarshalType (kindName v))

/-- Decoding the elements of the third slot one after the other; the first error met is
the one reported. -/
def unmarshalRecordList (recs : List JSON) : Except GoError (List (List RawMessage)) :=
  match recs with
  | [] => .ok []
  | r :: rest =>
    match unmarshalRecord r with
    | .error err => .error err
    | .ok v =>
      match unmarshalRecordList rest with
      | .error err => .error err
      | .ok vs => .ok (v :: vs)

/-- Decoding the third slot into `specificContent [][]json.RawMessage`: an array of
records, or `null` for the nil slice. -/
def unmarshalRecords (v : JSON) : Except GoError (List (List RawMessage)) :=
  match v.trim with
  | .null => .ok []
  | .array recs => unmarshalRecordList recs
  | .emptyArray _ => .ok []
  | _ => .error (.unmarshalType (kindName v))

/-- Decoding the elements of the top-level array from index 3 on, each into a fresh
`interface{}` slot of `arr`: the only thing that can fail is a number literal that does
not fit a `float64`. -/
def unmarshalExtra (extra : List JSON) : Except GoError Unit :=
  match JSON.firstOverflowElems extra with
  | some lit => .error (.unmarshalType ("number ".toList ++ lit))
  | none => .ok ()

/-- A JSON value an `int` variable accepts: `null` or a number literal that
`strconv.ParseInt` reads without error. -/
def intSlotOK (v : JSON) : Bool :=
  match v.trim with
  | .null => true
  | .number lit => (strconv.ParseInt lit).2 = none
  | _ => false

/-- A JSON value a `[]json.RawMessage` accepts: `null` or an array. -/
def recordSlotOK (v : JSON) : Bool :=
  match v.trim with
  | .null => true
  | .array _ => true
  | .emptyArray _ => true
  | _ => false

/-- A JSON value a `[][]json.RawMessage` accepts: `null` or an array of values that
`[]json.RawMessage` accepts. -/
def recordsSlotOK (v : JSON) : Bool :=
  match v.trim with
  | .null => true
  | .array recs => recs.all recordSlotOK
  | .emptyArray _ => true
  | _ => false

/-- The elements of a top-level array fit the Go values they are decoded into: the
elements at index 0 and 1, where present, fit an integer, the element at index 2, where
present, fits `[][]json.RawMessage`, and the numbers in the elements from index 3 on fit
a `float64`.  Nothing is asked of the number of elements. -/
def slotsOK (elems : List JSON) : Bool :=
  (elems[0]?).all intSlotOK && (elems[1]?).all intSlotOK && (elems[2]?).all recordsSlotOK &&
    (JSON.firstOverflowElems (elems.drop 3)).isNone

end json

/-- The three variables `parseMsg` decodes a frame into (lines 120-122). -/
structure Frame where
  channelID : Int
  seq : Int
  specificContent : List (List RawMessage)

namespace json

/-- What the element of the top-level array at index 0 or 1 does to its `int` variable,
which starts at 0; `none` is an index past the end of the array, where nothing is
decoded. -/
def intSlot (v : Option JSON) : Except GoError Int :=
  match v with
  | none => .ok 0
  | some v => unmarshalInt v 0

/-- What the element at index 2 does to `specificContent`, which starts as the nil
slice. -/
def recordsSlot (v : Option JSON) : Except GoError (List (List RawMessage)) :=
  match v with
  | none => .ok []
  | some v => unmarshalRecords v

/-- The decoding of the elements of the top-level array, in the order of the text; the
error returned is the first one met. -/
def unmarshalSlots (elems : List JSON) : Except GoError Frame :=
  match intSlot elems[0]?, intSlot elems[1]?, recordsSlot elems[2]?,
    unmarshalExtra (elems.drop 3) with
  | .error err, _, _, _ => .error err
  | .ok _, .error err, _, _ => .error err
  | .ok _, .ok _, .error err, _ => .error err
  | .ok _, .ok _, .ok _, .error err => .error err
  | .ok channelID, .ok seq, .ok specificContent, .ok _ =>
    .ok ⟨channelID, seq, specificContent⟩

/-- The call `json.Unmarshal(rawMessage, &arr)` of line 124, where
`arr = []interface{}{&channelID, &seq, &specificContent}`, on bytes that are one JSON
value.  The decoder fills the slice element by element: the elements of the JSON array
at index 0, 1 and 2 go through the pointers into the three variables, the elements from
index 3 on are decoded into fresh `interface{}` slots, and a JSON array shorter than 3
just truncates `arr`, leaving the other variables at their zero value.  The number of
elements is not checked.  A top-level `null` sets `arr` to nil; a top-level value that is
neither an array nor `null` is an `UnmarshalTypeError`. -/
def unmarshalFrame (rawMessage : JSON) : Except GoError Frame :=
  match rawMessage.trim with
  | .null => .ok ⟨0, 0, []⟩
  | .array elems => unmarshalSlots elems
  | .emptyArray _ => unmarshalSlots []
  | _ => .error (.unmarshalType (kindName rawMessage))

end json

/-! ## The message decoder: `parseMsg` -/

/-- How a call of `parseMsg` ends: it returns its `error` result (`none` is `nil`), or it
panics. -/
inductive Result where
  | returned (err : Option GoError)
  | panicked
  deriving DecidableEq, Repr

/-- What a call of `parseMsg` does: the log lines it writes, in order, and how it ends. -/
structure Run where
  logs : List LogEntry
  result : Result
  deriving DecidableEq, Repr

/-- One iteration of the loop of `parseMsg` (lines 130-162) on the record `v`.
The result `none` is the panic "index out of range" of an access `v[i]` with
`i >= len(v)` (or the panic of `jsByteToStr`); `some logs` are the lines the iteration
logs before the loop goes on to the next record. -/
def parseRecord (v : List RawMessage) : Option (List LogEntry) := do
  let v0 ← v[0]?
  let (msgType, logs) : GoString × List LogEntry :=
    match json.unmarshalString v0 with
    | .ok s => (s, [])
    | .error _ => ([], [LogEntry.cannotUnmarshal v0.raw])
  if msgType = "i".toList then
    let v1 ← v[1]?
    pure (logs ++ [LogEntry.snapshot v1.raw])
  else if msgType = "o".toList then
    let tradeType := (← v[1]?).raw
    let price ← jsByteToStr (← v[2]?).raw
    let size ← jsByteToStr (← v[3]?).raw
    let epochMs ← jsByteToStr (← v[4]?).raw
    pure (logs ++ [LogEntry.order tradeType price size epochMs])
  else if msgType = "t".toList then
    let tradeId ← byteToInt (← v[1]?).raw
    let tradeType := (← v[2]?).raw
    let price ← jsByteToStr (← v[3]?).raw
    let size ← jsByteToStr (← v[4]?).raw
    let timestamp := (← v[5]?).raw
    let epochMs ← jsByteToStr (← v[6]?).raw
    pure (logs ++ [LogEntry.trade tradeId tradeType price size timestamp epochMs])
  else
    pure (logs ++ [LogEntry.unknownType v0.raw])

/-- The loop `for _, v := range specificContent` of `parseMsg` followed by `return nil`:
a panic in one iteration ends the call, nothing after it runs. -/
def parseRecords (specificContent : List (List RawMessage)) : Run :=
  match specificContent with
  | [] => ⟨[], .returned none⟩
  | v :: rest =>
    match parseRecord v with
    | none => ⟨[], .panicked⟩
    | some logs => ⟨logs ++ (parseRecords rest).logs, (parseRecords rest).result⟩

/-- The function `parseMsg` (main.go 119-165).  The raw message is given by its JSON
syntax tree. -/
def parseMsg (rawMessage : JSON) : Run :=
  match json.unmarshalFrame rawMessage with
  | .error err => ⟨[], .returned (some err)⟩
  | .ok frame => parseRecords frame.specificContent


/-! ## The connection -/

/-- The constant `websocket.TextMessage`. -/
def TextMessage : Nat := 1

/-- The calls made on the websocket connection. -/
inductive Event where
  /-- A call `conn.WriteMessage(messageType, data)`. -/
  | write (messageType : Nat) (data : GoString)
  /-- A call `conn.ReadMessage()`. -/
  | read
  /-- The deferred `c.Close()`. -/
  | close
  deriving DecidableEq, Repr

/-- The websocket connection as the program meets it.  The peer and the network are a
script: `writeFails` says of each coming `WriteMessage` whether it fails (every call past
the end of the list succeeds), `inbound` is what each coming `ReadMessage` returns, a
frame or the code of a network error.  Past the end of `inbound` the peer sends nothing
more and keeps the connection open: the program sets no read deadline, so a
`ReadMessage` made then never returns.
The field `trace` records the calls made so far, oldest first. -/
structure Conn where
  writeFails : List Bool
  inbound : List (Except Nat JSON)
  trace : List Event

/-- The call `conn.WriteMessage(messageType, data)`. -/
def Conn.WriteMessage (conn : Conn) (messageType : Nat) (data : GoString) :
    Conn × Option GoError :=
  let trace := conn.trace ++ [Event.write messageType data]
  match conn.writeFails with
  | [] => (⟨[], conn.inbound, trace⟩, none)
  | fails :: rest => (⟨rest, conn.inbound, trace⟩, if fails then some (.network 1) else none)

/-- The call `conn.ReadMessage()`: `some` of the message or the error it returns, `none`
when the call blocks for ever because nothing arrives any more. -/
def Conn.ReadMessage (conn : Conn) : Conn × Option (Except GoError JSON) :=
  let trace := conn.trace ++ [Event.read]
  match conn.inbound with
  | [] => (⟨conn.writeFails, [], trace⟩, none)
  | .error code :: rest => (⟨conn.writeFails, rest, trace⟩, some (.error (.network code)))
  | .ok rawMessage :: rest => (⟨conn.writeFails, rest, trace⟩, some (.ok rawMessage))

/-- The call `c.Close()`. -/
def Conn.Close (conn : Conn) : Conn :=
  ⟨conn.writeFails, conn.inbound, conn.trace ++ [Event.close]⟩

/-- A `context.Context` made by `context.WithTimeout`, whose cancel function the program
drops: `ctx.Done()` is closed when the timeout has passed and not before, and `err` is
what `ctx.Err()` returns from then on. -/
structure Context where
  timeout : Nat
  err : GoError

/-- The call `context.WithTimeout(context.Background(), timeOut)`, `timeOut` in seconds. -/
def WithTimeout (timeOut : Nat) : Context := ⟨timeOut, .deadlineExceeded⟩

/-- How a call that uses the connection ends: it returns its `error` result (`none` is
`nil`), it panics, or it never returns because it is blocked in a read. -/
inductive Outcome where
  | returned (err : Option GoError)
  | panicked
  | blocked
  deriving DecidableEq, Repr

/-- What a call that uses the connection does: the connection afterwards, the lines
logged, and how the call ends. -/
structure Exec where
  conn : Conn
  logs : List LogEntry
  result : Outcome

/-! ## The fetch loop: `fetcher`, `fetchOneCurPair`, `fetchAndOutput` -/

/-- The function `fetcher` (main.go 187-203).  The body of its `for` reads one message,
with no deadline on the read; it returns the read error if there is one, otherwise it
decodes the message (logging a parse error) and enters a `select` whose only case is
`<-ctx.Done()`: the `select` blocks until the timeout has passed and then returns
`ctx.Err()`.  Every path through the body that goes on ends in a `return` (or in the
panic of `parseMsg`), so the body runs once. -/
def fetcher (conn : Conn) (ctx : Context) : Exec :=
  match conn.ReadMessage with
  | (conn, none) => ⟨conn, [], .blocked⟩
  | (conn, some (.error err)) => ⟨conn, [], .returned (some err)⟩
  | (conn, some (.ok rawMessage)) =>
    match parseMsg rawMessage with
    | ⟨logs, .panicked⟩ => ⟨conn, logs, .panicked⟩
    | ⟨logs, .returned none⟩ => ⟨conn, logs, .returned (some ctx.err)⟩
    | ⟨logs, .returned (some err)⟩ =>
      ⟨conn, logs ++ [LogEntry.parseError err], .returned (some ctx.err)⟩

/-- Lines 55-60 of `fetchOneCurPair`: the local variable `channel`, or the error returned
when `len(pairs) != 2`. -/
def channel (pair : GoString) : Except GoError GoString :=
  match strings.Split pair '_' with
  | [p0, p1] => .ok (strings.Join [p1, p0] "_".toList)
  | _ => .error (.text ("incorrect currency pair ".toList ++ pair))

/-- Line 61 of `fetchOneCurPair`: the local variable `subscribeCmd`. -/
def subscribeCmd (channel : GoString) : GoString :=
  "\x7b \"command\": \"subscribe\", \"channel\": \"".toList ++ channel ++ "\" \x7d".toList

/-- The constant `timeOut` of line 71, in seconds. -/
def timeOut : Nat := 3

/-- The function `fetchOneCurPair` (main.go 54-74). -/
def fetchOneCurPair (conn : Conn) (pair : GoString) : Exec :=
  match channel pair with
  | .error err => ⟨conn, [], .returned (some err)⟩
  | .ok ch =>
    match conn.WriteMessage TextMessage (subscribeCmd ch) with
    | (conn, some _) =>
      ⟨conn, [], .returned (some (.text ("error during sending message ".toList ++ subscribeCmd ch)))⟩
    | (conn, none) => fetcher conn (WithTimeout timeOut)

/-- The type `Conf`. -/
structure Conf where
  Poloniex : List GoString

/-- The loop of lines 48-50 of `fetchAndOutput`: `fetchOneCurPair` for every pair in
turn, its returned error dropped; a panic ends the loop, and a call that never returns
is the last thing the loop does. -/
def fetchPairs (conn : Conn) (pairs : List GoString) : Exec :=
  match pairs with
  | [] => ⟨conn, [], .returned none⟩
  | pair :: rest =>
    match fetchOneCurPair conn pair with
    | ⟨conn, logs, .panicked⟩ => ⟨conn, logs, .panicked⟩
    | ⟨conn, logs, .blocked⟩ => ⟨conn, logs, .blocked⟩
    | ⟨conn, logs, .returned _⟩ =>
      ⟨(fetchPairs conn rest).conn, logs ++ (fetchPairs conn rest).logs,
        (fetchPairs conn rest).result⟩

/-- The function `fetchAndOutput` (main.go 40-52); `dial` is what the call
`websocket.DefaultDialer.Dial` of line 41 returns.  After a failed dial there is no
connection, and the result carries one on which no call was made.  The deferred
`c.Close()` runs when the function returns or panics; it does not run while the function
is blocked. -/
def fetchAndOutput (dial : Except GoError Conn) (cfg : Conf) : Exec :=
  match dial with
  | .error err => ⟨⟨[], [], []⟩, [LogEntry.dialError err], .returned (some err)⟩
  | .ok c =>
    match fetchPairs c cfg.Poloniex with
    | ⟨conn, logs, .blocked⟩ => ⟨conn, logs, .blocked⟩
    | ⟨conn, logs, result⟩ => ⟨conn.Close, logs, result⟩

/-! ## Lemmas on `strings.Split` -/

theorem Split_cons (c : Char) (cs : GoString) (sep : Char) :
    strings.Split (c :: cs) sep =
      if c = sep then [] :: strings.Split cs sep
      else
        match strings.Split cs sep with
        | [] => [[c]]
        | piece :: pieces => (c :: piece) :: pieces := by
  rw [strings.Split]

theorem Split_ne_nil (s : GoString) (sep : Char) : strings.Split s sep ≠ [] := by
  cases s with
  | nil => simp [strings.Split]
  | cons c cs =>
    unfold strings.Split
    split
    · simp
    · split <;> simp

theorem Split_length (s : GoString) (sep : Char) :
    (strings.Split s sep).length = s.count sep + 1 := by
  induction s with
  | nil => simp [strings.Split]
  | cons c cs ih =>
    unfold strings.Split
    by_cases h : c = sep
    · subst h
      simp [ih]
    · have hne : (c == sep) = false := by simpa using h
      rw [if_neg h, List.count_cons, hne]
      cases hs : strings.Split cs sep with
      | nil => exact absurd hs (Split_ne_nil cs sep)
      | cons piece pieces =>
        rw [hs] at ih
        simpa using ih

theorem Split_of_not_mem (s : GoString) (sep : Char) (h : sep ∉ s) :
    strings.Split s sep = [s] := by
  induction s with
  | nil => simp [strings.Split]
  | cons c cs ih =>
    have hc : c ≠ sep := fun e => h (by simp [e])
    have hcs : sep ∉ cs := fun e => h (by simp [e])
    unfold strings.Split
    rw [if_neg hc, ih hcs]

theorem Split_append_sep (b q : GoString) (sep : Char) (h : sep ∉ b) :
    strings.Split (b ++ sep :: q) sep = b :: strings.Split q sep := by
  induction b with
  | nil => simp [strings.Split]
  | cons c cs ih =>
    have hc : c ≠ sep := fun e => h (by simp [e])
    have hcs : sep ∉ cs := fun e => h (by simp [e])
    rw [List.cons_append, Split_cons, if_neg hc, ih hcs]

/-! ## The channel mapping -/

/-- C1: for every symbol `B_Q` whose parts `B` and `Q` do not contain the separator `_`,
the channel name computed by `fetchOneCurPair` (split on `_`, swap, join with `_`) is
exactly `Q_B`. -/
theorem channel_swaps (B Q : GoString) (hB : '_' ∉ B) (hQ : '_' ∉ Q) :
    channel (B ++ '_' :: Q) = .ok (Q ++ '_' :: B) := by
  unfold channel
  rw [Split_append_sep B Q '_' hB, Split_of_not_mem Q '_' hQ]
  simp [strings.Join]

/-- C1 at `BTC_USDT`: the channel name is `USDT_BTC`. -/
theorem channel_swaps_witness :
    '_' ∉ "BTC".toList ∧ '_' ∉ "USDT".toList ∧
      channel "BTC_USDT".toList = .ok "USDT_BTC".toList :=
  ⟨by decide, by decide, channel_swaps "BTC".toList "USDT".toList (by decide) (by decide)⟩

theorem channel_error_of_count (s : GoString) (h : s.count '_' ≠ 1) :
    channel s = .error (.text ("incorrect currency pair ".toList ++ s)) := by
  have hlen := Split_length s '_'
  unfold channel
  split
  · rename_i p0 p1 heq
    rw [heq] at hlen
    simp at hlen
    omega
  · rfl

theorem channel_ok_of_count (s : GoString) (h : s.count '_' = 1) :
    ∃ ch, channel s = .ok ch := by
  have hlen := Split_length s '_'
  rw [h] at hlen
  unfold channel
  rcases hs : strings.Split s '_' with _ | ⟨p0, _ | ⟨p1, _ | ⟨p2, rest⟩⟩⟩
  · rw [hs] at hlen; simp at hlen
  · rw [hs] at hlen; simp at hlen
  · exact ⟨_, rfl⟩
  · rw [hs] at hlen; simp at hlen

theorem fetcher_nil (w : List Bool) (tr : List Event) (ctx : Context) :
    fetcher ⟨w, [], tr⟩ ctx = ⟨⟨w, [], tr ++ [Event.read]⟩, [], .blocked⟩ := by
  rfl

theorem fetcher_error (w : List Bool) (code : Nat) (rest : List (Except Nat JSON))
    (tr : List Event) (ctx : Context) :
    fetcher ⟨w, .error code :: rest, tr⟩ ctx =
      ⟨⟨w, rest, tr ++ [Event.read]⟩, [], .returned (some (.network code))⟩ := by
  rfl

theorem fetcher_ok (w : List Bool) (f : JSON) (rest : List (Except Nat JSON))
    (tr : List Event) (ctx : Context) :
    fetcher ⟨w, .ok f :: rest, tr⟩ ctx =
      ⟨⟨w, rest, tr ++ [Event.read]⟩,
        (parseMsg f).logs ++
          (match (parseMsg f).result with
            | .returned (some err) => [LogEntry.parseError err]
            | _ => []),
        match (parseMsg f).result with
          | .panicked => .panicked
          | .returned _ => .returned (some ctx.err)⟩ := by
  simp only [fetcher, Conn.ReadMessage]
  rcases parseMsg f with ⟨logs, result⟩
  cases result with
  | panicked => simp
  | returned err => cases err <;> simp

theorem fetcher_conn (conn : Conn) (ctx : Context) :
    (fetcher conn ctx).conn = ⟨conn.writeFails, conn.inbound.tail, conn.trace ++ [Event.read]⟩ := by
  rcases conn with ⟨w, inbound, tr⟩
  rcases inbound with _ | ⟨msg, rest⟩
  · rfl
  · cases msg with
    | error code => rfl
    | ok f => rw [fetcher_ok]; rfl

theorem fetcher_result (conn : Conn) (ctx : Context) :
    (fetcher conn ctx).result = .panicked ∨ (fetcher conn ctx).result = .blocked ∨
      (fetcher conn ctx).result = .returned (some ctx.err) ∨
      ∃ code, (fetcher conn ctx).result = .returned (some (.network code)) := by
  rcases conn with ⟨w, inbound, tr⟩
  rcases inbound with _ | ⟨msg, rest⟩
  · exact Or.inr (Or.inl rfl)
  · cases msg with
    | error code => exact Or.inr (Or.inr (Or.inr ⟨code, rfl⟩))
    | ok f =>
      rw [fetcher_ok]
      cases (parseMsg f).result with
      | panicked => exact Or.inl rfl
      | returned err => exact Or.inr (Or.inr (Or.inl rfl))

theorem fetcher_trace (conn : Conn) (ctx : Context) :
    (fetcher conn ctx).conn.trace = conn.trace ++ [Event.read] := by
  rw [fetcher_conn]

theorem fetchOneCurPair_of_channel_error (conn : Conn) (pair : GoString) (err : GoError)
    (h : channel pair = .error err) :
    fetchOneCurPair conn pair = ⟨conn, [], .returned (some err)⟩ := by
  simp [fetchOneCurPair, h]

theorem fetchOneCurPair_send_fails (rest : List Bool) (inbound : List (Except Nat JSON))
    (tr : List Event) (pair ch : GoString) (h : channel pair = .ok ch) :
    fetchOneCurPair ⟨true :: rest, inbound, tr⟩ pair =
      ⟨⟨rest, inbound, tr ++ [Event.write TextMessage (subscribeCmd ch)]⟩, [],
        .returned (some (.text ("error during sending message ".toList ++ subscribeCmd ch)))⟩ := by
  simp [fetchOneCurPair, h, Conn.WriteMessage]

theorem fetchOneCurPair_send_ok (w : List Bool) (inbound : List (Except Nat JSON))
    (tr : List Event) (pair ch : GoString) (h : channel pair = .ok ch)
    (hw : w.head? ≠ some true) :
    fetchOneCurPair ⟨w, inbound, tr⟩ pair =
      fetcher ⟨w.tail, inbound, tr ++ [Event.write TextMessage (subscribeCmd ch)]⟩
        (WithTimeout timeOut) := by
  rcases w with _ | ⟨fails, rest⟩
  · simp [fetchOneCurPair, h, Conn.WriteMessage]
  · cases fails with
    | true => simp at hw
    | false => simp [fetchOneCurPair, h, Conn.WriteMessage]

theorem fetchOneCurPair_of_channel_ok (conn : Conn) (pair ch : GoString)
    (h : channel pair = .ok ch) :
    ((fetchOneCurPair conn pair).result = .panicked ∨
      (fetchOneCurPair conn pair).result = .blocked ∨
      (fetchOneCurPair conn pair).result = .returned (some .deadlineExceeded) ∨
      (∃ code, (fetchOneCurPair conn pair).result = .returned (some (.network code))) ∨
      (fetchOneCurPair conn pair).result =
        .returned (some (.text ("error during sending message ".toList ++ subscribeCmd ch)))) ∧
    ∃ tail, (fetchOneCurPair conn pair).conn.trace =
      conn.trace ++ Event.write TextMessage (subscribeCmd ch) :: tail := by
  rcases conn with ⟨w, inbound, tr⟩
  by_cases hw : w.head? = some true
  · rcases w with _ | ⟨fails, rest⟩
    · simp at hw
    · simp at hw
      subst hw
      rw [fetchOneCurPair_send_fails rest inbound tr pair ch h]
      exact ⟨Or.inr (Or.inr (Or.inr (Or.inr rfl))), [], rfl⟩
  · rw [fetchOneCurPair_send_ok w inbound tr pair ch h hw]
    refine ⟨?_, [Event.read], ?_⟩
    · rcases fetcher_result ⟨w.tail, inbound, tr ++ [Event.write TextMessage (subscribeCmd ch)]⟩
        (WithTimeout timeOut) with h1 | h1 | h1 | h1
      · exact Or.inl h1
      · exact Or.inr (Or.inl h1)
      · exact Or.inr (Or.inr (Or.inl h1))
      · exact Or.inr (Or.inr (Or.inr (Or.inl h1)))
    · rw [fetcher_trace]
      simp

theorem fetchOneCurPair_invalid_iff_aux (conn : Conn) (s : GoString)
    (hcount : s.count '_' = 1) :
    (fetchOneCurPair conn s).result ≠
      .returned (some (.text ("incorrect currency pair ".toList ++ s))) := by
  intro h
  obtain ⟨ch, hch⟩ := channel_ok_of_count s hcount
  rcases (fetchOneCurPair_of_channel_ok conn s ch hch).1 with h1 | h1 | h1 | ⟨code, h1⟩ | h1
  · rw [h1] at h; cases h
  · rw [h1] at h; cases h
  · rw [h1] at h; cases h
  · rw [h1] at h; cases h
  · rw [h1] at h
    simp at h

/-! ## Lemmas on `strconv.Atoi` -/

theorem ParseInt_rejected (s : GoString) :
    ((strconv.ParseInt s).2 = some .ErrSyntax → (strconv.ParseInt s).1 = 0) ∧
      ((strconv.ParseInt s).2 = some .ErrRange →
        (strconv.ParseInt s).1 = if s.head? = some '-' then -(2 : Int) ^ 63 else 2 ^ 63 - 1) := by
  cases s with
  | nil => simp [strconv.ParseInt]
  | cons c cs =>
    simp only [strconv.ParseInt]
    rcases strconv.ParseUint (if c = '+' ∨ c = '-' then cs else c :: cs) with ⟨un, err⟩
    simp only
    by_cases hs : err = some .ErrSyntax
    · simp [hs]
    · rw [if_neg hs]
      by_cases hneg : c = '-'
      · simp only [hneg, decide_True, Bool.not_true, Bool.false_eq_true, false_and, if_false,
          true_and, List.head?_cons, if_true]
        split <;> simp [strconv.intSize]
      · simp only [hneg, decide_False, Bool.not_false, true_and, Bool.false_eq_true, false_and,
          if_false, List.head?_cons, Option.some.injEq]
        split <;> simp [strconv.intSize]

theorem Atoi_rejected (s : GoString) :
    ((strconv.Atoi s).2 = some .ErrSyntax → (strconv.Atoi s).1 = 0) ∧
      ((strconv.Atoi s).2 = some .ErrRange →
        (strconv.Atoi s).1 = if s.head? = some '-' then -(2 : Int) ^ 63 else 2 ^ 63 - 1) := by
  cases s with
  | nil => exact ParseInt_rejected []
  | cons c cs =>
    simp only [strconv.Atoi]
    by_cases hlen : (c :: cs).length < 19
    · rw [if_pos hlen]
      by_cases hsign : c = '-' ∨ c = '+'
      · simp only [hsign, if_true, true_and]
        by_cases hcs : cs.length < 1
        · simp [hcs]
        · rw [if_neg hcs]
          cases strconv.atoiLoop cs 0 <;> simp
      · simp only [hsign, if_false, false_and]
        cases strconv.atoiLoop (c :: cs) 0 <;> simp
    · rw [if_neg hlen]
      exact ParseInt_rejected (c :: cs)

/-- C7: `fetchOneCurPair` returns the error "incorrect currency pair " followed by the
symbol itself if and only if the symbol does not contain exactly one separator `_`. -/
theorem fetchOneCurPair_invalid_iff (conn : Conn) (s : GoString) :
    (fetchOneCurPair conn s).result =
        .returned (some (.text ("incorrect currency pair ".toList ++ s))) ↔
      s.count '_' ≠ 1 := by
  constructor
  · intro h hcount
    exact fetchOneCurPair_invalid_iff_aux conn s hcount h
  · intro h
    rw [fetchOneCurPair_of_channel_error conn s _ (channel_error_of_count s h)]

/-- C8 is false as stated: for `_USDT`, `BTC_` and `_` the channel mapping does not fail;
it yields the channel names `USDT_`, `_BTC` and `_`, and for `_USDT` on a fresh connection
`fetchOneCurPair` sends the subscribe command and goes on to read. -/
theorem channel_empty_component_counterexample :
    channel "_USDT".toList = .ok "USDT_".toList ∧
      channel "BTC_".toList = .ok "_BTC".toList ∧
      channel "_".toList = .ok "_".toList ∧
      (fetchOneCurPair ⟨[], [], []⟩ "_USDT".toList).conn.trace =
        [.write TextMessage (subscribeCmd "USDT_".toList), .read] ∧
      (fetchOneCurPair ⟨[], [], []⟩ "_USDT".toList).result ≠
        .returned (some (.text "incorrect currency pair _USDT".toList)) :=
  ⟨rfl, rfl, rfl, by decide, by decide⟩

/-- C8 (amended): for every symbol `B_Q` with exactly one separator in which `B` or `Q`
is empty, `fetchOneCurPair` does not fail with the invalid-format error: the channel name
is `Q_B` as for any other symbol, and the subscribe command for it is the next message
written to the connection. -/
theorem fetchOneCurPair_empty_component (conn : Conn) (B Q : GoString)
    (hB : '_' ∉ B) (hQ : '_' ∉ Q) (_hempty : B = [] ∨ Q = []) :
    (fetchOneCurPair conn (B ++ '_' :: Q)).result ≠
        .returned (some (.text ("incorrect currency pair ".toList ++ (B ++ '_' :: Q)))) ∧
      ∃ tail, (fetchOneCurPair conn (B ++ '_' :: Q)).conn.trace =
        conn.trace ++ Event.write TextMessage (subscribeCmd (Q ++ '_' :: B)) :: tail := by
  have hch : channel (B ++ '_' :: Q) = .ok (Q ++ '_' :: B) := by
    unfold channel
    rw [Split_append_sep B Q '_' hB, Split_of_not_mem Q '_' hQ]
    simp [strings.Join]
  have hcount : (B ++ '_' :: Q).count '_' = 1 := by
    have := Split_length (B ++ '_' :: Q) '_'
    rw [Split_append_sep B Q '_' hB, Split_of_not_mem Q '_' hQ] at this
    simp only [List.length_cons, List.length_nil] at this
    omega
  exact ⟨fun h => (fetchOneCurPair_invalid_iff_aux conn _ hcount) h,
    (fetchOneCurPair_of_channel_ok conn _ _ hch).2⟩

/-- C8 (amended) at `_USDT`: not the invalid-format error, and the subscribe command for
the channel `USDT_` is written. -/
theorem fetchOneCurPair_empty_component_witness :
    (fetchOneCurPair ⟨[], [], []⟩ "_USDT".toList).result ≠
        .returned (some (.text "incorrect currency pair _USDT".toList)) ∧
      ∃ tail, (fetchOneCurPair ⟨[], [], []⟩ "_USDT".toList).conn.trace =
        [] ++ Event.write TextMessage (subscribeCmd "USDT_".toList) :: tail :=
  fetchOneCurPair_empty_component ⟨[], [], []⟩ [] "USDT".toList (by decide) (by decide)
    (Or.inl rfl)

/-! ## Value coercion -/

/-- C2 (code defect): `jsByteToStr` does not return the whole inner text.  The upper
bound of its slice is the index of the last inner byte, which the slice excludes, so the
token `"12345"` (with its quotes) yields `1234`, as does the token `12345` without quotes;
only the empty token comes out as the claim says. -/
theorem jsByteToStr_drops_last_byte :
    jsByteToStr "\"12345\"".toList = some "1234".toList ∧
      jsByteToStr "12345".toList = some "1234".toList ∧
      jsByteToStr [] = some [] := by
  decide

/-- C3 (code defect): the trade id token `"12345"` decodes to 1234, not to 12345; the
last digit is lost in `jsByteToStr`. -/
theorem byteToInt_quoted_12345 :
    jsByteToStr "\"12345\"".toList = some "1234".toList ∧
      strconv.Atoi "1234".toList = (1234, none) ∧
      byteToInt "\"12345\"".toList = some 1234 := by
  decide

/-! ## Lemmas on the decoder -/

theorem parseRecords_cons_some (v : List RawMessage) (rest : List (List RawMessage))
    (logs : List LogEntry) (h : parseRecord v = some logs) :
    parseRecords (v :: rest) =
      ⟨logs ++ (parseRecords rest).logs, (parseRecords rest).result⟩ := by
  rw [parseRecords, h]

theorem parseRecords_cons_none (v : List RawMessage) (rest : List (List RawMessage))
    (h : parseRecord v = none) : parseRecords (v :: rest) = ⟨[], .panicked⟩ := by
  rw [parseRecords, h]

theorem parseRecords_never_error (recs : List (List RawMessage)) (err : GoError) :
    (parseRecords recs).result ≠ .returned (some err) := by
  induction recs with
  | nil => simp [parseRecords]
  | cons v rest ih =>
    cases h : parseRecord v with
    | none => simp [parseRecords_cons_none v rest h]
    | some logs => simpa [parseRecords_cons_some v rest logs h] using ih

theorem unmarshalInt_ok_iff (v : JSON) (old : Int) :
    (∃ n, json.unmarshalInt v old = .ok n) ↔ json.intSlotOK v = true := by
  unfold json.unmarshalInt json.intSlotOK
  generalize v.trim = t
  cases t with
  | number lit =>
    rcases h : strconv.ParseInt lit with ⟨n, e⟩
    cases e <;> simp [h]
  | _ => simp

theorem unmarshalRecord_ok_iff (v : JSON) :
    (∃ r, json.unmarshalRecord v = .ok r) ↔ json.recordSlotOK v = true := by
  unfold json.unmarshalRecord json.recordSlotOK
  generalize v.trim = t
  cases t <;> simp

theorem unmarshalRecordList_cons (v : JSON) (rest : List JSON) :
    json.unmarshalRecordList (v :: rest) =
      match json.unmarshalRecord v with
      | .error err => .error err
      | .ok r =>
        match json.unmarshalRecordList rest with
        | .error err => .error err
        | .ok rs => .ok (r :: rs) := by
  rw [json.unmarshalRecordList]

theorem unmarshalRecordList_ok_iff (recs : List JSON) :
    (∃ r, json.unmarshalRecordList recs = .ok r) ↔ recs.all json.recordSlotOK = true := by
  induction recs with
  | nil => simp [json.unmarshalRecordList]
  | cons v rest ih =>
    rw [List.all_cons, Bool.and_eq_true, ← ih, ← unmarshalRecord_ok_iff,
      unmarshalRecordList_cons]
    cases h1 : json.unmarshalRecord v with
    | error e => simp
    | ok r =>
      cases h2 : json.unmarshalRecordList rest with
      | error e => simp
      | ok rs => simp

theorem unmarshalRecords_ok_iff (v : JSON) :
    (∃ r, json.unmarshalRecords v = .ok r) ↔ json.recordsSlotOK v = true := by
  unfold json.unmarshalRecords json.recordsSlotOK
  generalize v.trim = t
  cases t with
  | array recs => simpa using unmarshalRecordList_ok_iff recs
  | _ => simp

theorem unmarshalExtra_ok_iff (extra : List JSON) :
    (∃ u, json.unmarshalExtra extra = .ok u) ↔
      (JSON.firstOverflowElems extra).isNone = true := by
  unfold json.unmarshalExtra
  cases JSON.firstOverflowElems extra <;> simp

theorem except_ok_or_error {ε α : Type} (x : Except ε α) :
    (∃ a, x = .ok a) ∨ (∃ e, x = .error e) := by
  cases x with
  | ok a => exact Or.inl ⟨a, rfl⟩
  | error e => exact Or.inr ⟨e, rfl⟩

theorem intSlot_ok_iff (v : Option JSON) :
    (∃ n, json.intSlot v = .ok n) ↔ v.all json.intSlotOK = true := by
  cases v with
  | none => simp [json.intSlot]
  | some v => simpa [json.intSlot] using unmarshalInt_ok_iff v 0

theorem recordsSlot_ok_iff (v : Option JSON) :
    (∃ r, json.recordsSlot v = .ok r) ↔ v.all json.recordsSlotOK = true := by
  cases v with
  | none => simp [json.recordsSlot]
  | some v => simpa [json.recordsSlot] using unmarshalRecords_ok_iff v

theorem unmarshalSlots_ok_iff (elems : List JSON) :
    (∃ f, json.unmarshalSlots elems = .ok f) ↔ json.slotsOK elems = true := by
  unfold json.slotsOK
  rw [Bool.and_eq_true, Bool.and_eq_true, Bool.and_eq_true, ← intSlot_ok_iff,
    ← intSlot_ok_iff, ← recordsSlot_ok_iff, ← unmarshalExtra_ok_iff]
  simp only [json.unmarshalSlots]
  split <;> simp_all

theorem unmarshalFrame_of_arrayElems (rawMessage : JSON) (elems : List JSON)
    (h : rawMessage.arrayElems = some elems) :
    json.unmarshalFrame rawMessage = json.unmarshalSlots elems := by
  unfold JSON.arrayElems at h
  unfold json.unmarshalFrame
  generalize rawMessage.trim = t at h
  cases t <;> simp_all

theorem unmarshalSlots_three (c s r : JSON) (recs : List (List RawMessage))
    (hc : json.intSlotOK c = true) (hs : json.intSlotOK s = true)
    (hr : json.unmarshalRecords r = .ok recs) :
    ∃ n m, json.unmarshalSlots [c, s, r] = .ok ⟨n, m, recs⟩ := by
  obtain ⟨n, hn⟩ := (unmarshalInt_ok_iff c 0).2 hc
  obtain ⟨m, hm⟩ := (unmarshalInt_ok_iff s 0).2 hs
  refine ⟨n, m, ?_⟩
  simp [json.unmarshalSlots, json.intSlot, json.recordsSlot, json.unmarshalExtra,
    JSON.firstOverflowElems, hn, hm, hr]

theorem parseMsg_error_iff_unmarshal (rawMessage : JSON) (err : GoError) :
    (parseMsg rawMessage).result = .returned (some err) ↔
      json.unmarshalFrame rawMessage = .error err := by
  unfold parseMsg
  cases h : json.unmarshalFrame rawMessage with
  | error e => simp
  | ok frame => simpa using parseRecords_never_error frame.specificContent err

theorem parseMsg_of_unmarshal_ok (rawMessage : JSON) (frame : Frame)
    (h : json.unmarshalFrame rawMessage = .ok frame) :
    parseMsg rawMessage = parseRecords frame.specificContent := by
  simp [parseMsg, h]

theorem parseMsg_of_frame (rawMessage c s r : JSON) (recs : List (List RawMessage))
    (hframe : rawMessage.arrayElems = some [c, s, r])
    (hc : json.intSlotOK c = true) (hs : json.intSlotOK s = true)
    (hr : json.unmarshalRecords r = .ok recs) :
    parseMsg rawMessage = parseRecords recs := by
  obtain ⟨n, m, h⟩ := unmarshalSlots_three c s r recs hc hs hr
  rw [parseMsg_of_unmarshal_ok rawMessage ⟨n, m, recs⟩
    (by rw [unmarshalFrame_of_arrayElems rawMessage _ hframe, h])]

theorem parseRecords_append (pre post : List (List RawMessage))
    (h : (parseRecords pre).result = .returned none) :
    parseRecords (pre ++ post) =
      ⟨(parseRecords pre).logs ++ (parseRecords post).logs, (parseRecords post).result⟩ := by
  induction pre with
  | nil => simp [parseRecords]
  | cons v rest ih =>
    cases hv : parseRecord v with
    | none => simp [parseRecords_cons_none v rest hv] at h
    | some logs =>
      rw [parseRecords_cons_some v rest logs hv] at h
      rw [List.cons_append, parseRecords_cons_some v (rest ++ post) logs hv, ih h,
        parseRecords_cons_some v rest logs hv]
      simp

theorem parseRecords_append_panicked (pre post : List (List RawMessage))
    (h : (parseRecords pre).result = .panicked) :
    (parseRecords (pre ++ post)).result = .panicked := by
  induction pre with
  | nil => simp [parseRecords] at h
  | cons v rest ih =>
    cases hv : parseRecord v with
    | none => simp [parseRecords_cons_none v (rest ++ post) hv]
    | some logs =>
      rw [parseRecords_cons_some v rest logs hv] at h
      rw [List.cons_append, parseRecords_cons_some v (rest ++ post) logs hv]
      exact ih h

theorem parseRecords_result_cases (recs : List (List RawMessage)) :
    (parseRecords recs).result = .returned none ∨ (parseRecords recs).result = .panicked := by
  cases h : (parseRecords recs).result with
  | panicked => exact Or.inr rfl
  | returned err =>
    cases err with
    | none => exact Or.inl rfl
    | some e => exact absurd h (parseRecords_never_error recs e)

theorem parseRecord_unknown (v0 : RawMessage) (rest : List RawMessage) (tag : GoString)
    (h : json.unmarshalString v0 = .ok tag) (hi : tag ≠ "i".toList) (ho : tag ≠ "o".toList)
    (ht : tag ≠ "t".toList) :
    parseRecord (v0 :: rest) = some [LogEntry.unknownType v0.raw] := by
  have hi1 : tag ≠ ['i'] := hi
  have ho1 : tag ≠ ['o'] := ho
  have ht1 : tag ≠ ['t'] := ht
  simp [parseRecord, h, hi1, ho1, ht1]

theorem parseRecord_cannotUnmarshal (v0 : RawMessage) (rest : List RawMessage)
    (err : GoError) (h : json.unmarshalString v0 = .error err) :
    parseRecord (v0 :: rest) =
      some [LogEntry.cannotUnmarshal v0.raw, LogEntry.unknownType v0.raw] := by
  simp [parseRecord, h]

theorem unmarshalString_of_string (v0 : RawMessage) (lit tag : GoString)
    (hv0 : v0.trim = .string lit) (hlit : json.unquote lit = some tag) :
    json.unmarshalString v0 = .ok tag := by
  simp [json.unmarshalString, hv0, hlit]

theorem unmarshalString_of_null (v0 : RawMessage) (hv0 : v0.trim = .null) :
    json.unmarshalString v0 = .ok [] := by
  simp [json.unmarshalString, hv0]

theorem unmarshalString_of_other (v0 : RawMessage) (hs : ∀ lit, v0.trim ≠ .string lit)
    (hn : v0.trim ≠ .null) :
    json.unmarshalString v0 = .error (.unmarshalType (json.kindName v0)) := by
  unfold json.unmarshalString
  generalize v0.trim = t at hs hn
  cases t with
  | null => exact absurd rfl hn
  | string lit => exact absurd rfl (hs lit)
  | _ => rfl

theorem trim_trim : (v : JSON) → v.trim.trim = v.trim
  | .spaced _ v _ => by
    rw [JSON.trim]
    exact trim_trim v
  | .null => rfl
  | .bool _ => rfl
  | .number _ => rfl
  | .string _ => rfl
  | .array _ => rfl
  | .object _ => rfl
  | .emptyArray _ => rfl
  | .emptyObject _ => rfl
  | .objectSpaced _ => rfl

theorem unmarshalRecord_trimmed (v : JSON) (record : List RawMessage)
    (h : json.unmarshalRecord v = .ok record) : ∀ x ∈ record, x.trim = x := by
  unfold json.unmarshalRecord at h
  generalize v.trim = t at h
  cases t with
  | array elems =>
    simp only [Except.ok.injEq] at h
    subst h
    intro x hx
    obtain ⟨y, _, rfl⟩ := List.mem_map.1 hx
    exact trim_trim y
  | null =>
    simp only [Except.ok.injEq] at h
    subst h
    simp
  | emptyArray space =>
    simp only [Except.ok.injEq] at h
    subst h
    simp
  | _ => simp at h

theorem unmarshalRecordList_trimmed (recs : List JSON) (records : List (List RawMessage))
    (h : json.unmarshalRecordList recs = .ok records) :
    ∀ record ∈ records, ∀ x ∈ record, x.trim = x := by
  induction recs generalizing records with
  | nil =>
    simp only [json.unmarshalRecordList, Except.ok.injEq] at h
    subst h
    simp
  | cons v rest ih =>
    rw [unmarshalRecordList_cons] at h
    cases h1 : json.unmarshalRecord v with
    | error e => simp [h1] at h
    | ok r =>
      cases h2 : json.unmarshalRecordList rest with
      | error e => simp [h1, h2] at h
      | ok rs =>
        simp only [h1, h2, Except.ok.injEq] at h
        subst h
        intro record hrec
        rcases List.mem_cons.1 hrec with rfl | hmem
        · exact unmarshalRecord_trimmed v _ h1
        · exact ih rs h2 record hmem

theorem unmarshalRecords_trimmed (r : JSON) (records : List (List RawMessage))
    (h : json.unmarshalRecords r = .ok records) :
    ∀ record ∈ records, ∀ x ∈ record, x.trim = x := by
  unfold json.unmarshalRecords at h
  generalize r.trim = t at h
  cases t with
  | array recs => exact unmarshalRecordList_trimmed recs records h
  | null =>
    simp only [Except.ok.injEq] at h
    subst h
    simp
  | emptyArray space =>
    simp only [Except.ok.injEq] at h
    subst h
    simp
  | _ => simp at h

/-! ## The message decoder -/

/-- C4 (code defect): an "o" record with fewer than 5 elements is not skipped.  In the
frame `[5,100,[["o",1,"0.5","2.0","1600000000000"],["o",1],["o",0,"0.7","3.0","1600000000001"]]]`
the first record is decoded and logged, the access `v[2]` of the second record panics,
and the third record is never reached. -/
theorem parseMsg_short_record_panics :
    parseMsg (.array [.number "5".toList, .number "100".toList, .array [
        .array [.string "o".toList, .number "1".toList, .string "0.5".toList,
          .string "2.0".toList, .string "1600000000000".toList],
        .array [.string "o".toList, .number "1".toList],
        .array [.string "o".toList, .number "0".toList, .string "0.7".toList,
          .string "3.0".toList, .string "1600000000001".toList]]]) =
      ⟨[.order "1".toList "0.".toList "2.".toList "160000000000".toList], .panicked⟩ := by
  decide

theorem parseMsg_at_record (rawMessage c s r : JSON) (pre post : List (List RawMessage))
    (record : List RawMessage) (logs : List LogEntry)
    (hframe : rawMessage.arrayElems = some [c, s, r])
    (hc : json.intSlotOK c = true) (hs : json.intSlotOK s = true)
    (hrecs : json.unmarshalRecords r = .ok (pre ++ record :: post))
    (hrec : parseRecord record = some logs) :
    (∀ err, (parseMsg rawMessage).result ≠ .returned (some err)) ∧
      ((parseRecords pre).result = .returned none →
        (parseMsg rawMessage).logs =
            (parseRecords pre).logs ++ (logs ++ (parseRecords post).logs) ∧
          (parseMsg rawMessage).result = (parseRecords post).result) ∧
      (parseMsg rawMessage).result = (parseRecords (pre ++ post)).result := by
  rw [parseMsg_of_frame rawMessage c s r _ hframe hc hs hrecs]
  refine ⟨fun err => parseRecords_never_error _ err, fun hpre => ?_, ?_⟩
  · rw [parseRecords_append pre _ hpre, parseRecords_cons_some _ _ _ hrec]
    exact ⟨rfl, rfl⟩
  · rcases parseRecords_result_cases pre with h | h
    · rw [parseRecords_append pre _ h, parseRecords_append pre _ h,
        parseRecords_cons_some _ _ _ hrec]
    · rw [parseRecords_append_panicked pre _ h, parseRecords_append_panicked pre _ h]

/-- C5 is false as stated: the frames `[5,100]` and `[5,100,[],7]` do not have 3 elements
and `parseMsg` returns nil on both. -/
theorem parseMsg_arity_counterexample :
    ([JSON.number "5".toList, .number "100".toList].length ≠ 3 ∧
      (parseMsg (.array [.number "5".toList, .number "100".toList])).result =
        .returned none) ∧
    ([JSON.number "5".toList, .number "100".toList, .array [], .number "7".toList].length ≠ 3 ∧
      (parseMsg (.array [.number "5".toList, .number "100".toList, .array [],
        .number "7".toList])).result = .returned none) := by
  set_option exponentiation.threshold 2000 in
  decide

/-- C5 (amended): for every frame that is a JSON array whose number of elements is not 3,
`parseMsg` returns an error exactly when one of the elements does not fit the Go value it
is decoded into: an integer at index 0 and at index 1, an array of arrays at index 2
(`null` allowed in each of the three places), and from index 3 on any value in which
every number fits a `float64`.  The number of elements by itself never makes an error. -/
theorem parseMsg_error_iff_slots (rawMessage : JSON) (elems : List JSON)
    (_hvalid : rawMessage.valid = true) (harray : rawMessage.arrayElems = some elems)
    (_harity : elems.length ≠ 3) :
    (∃ err, (parseMsg rawMessage).result = .returned (some err)) ↔
      json.slotsOK elems = false := by
  rw [← Bool.not_eq_true, ← unmarshalSlots_ok_iff,
    ← unmarshalFrame_of_arrayElems rawMessage elems harray]
  constructor
  · rintro ⟨err, h⟩ ⟨f, hf⟩
    rw [parseMsg_error_iff_unmarshal, hf] at h
    cases h
  · intro h
    rcases except_ok_or_error (json.unmarshalFrame rawMessage) with ⟨f, hf⟩ | ⟨e, he⟩
    · exact absurd ⟨f, hf⟩ h
    · exact ⟨e, (parseMsg_error_iff_unmarshal _ e).2 he⟩

/-- C5 (amended) at the 4-element frames `[5,100,[],7]`, whose elements fit, and
`[5,100,[],1e999]`, whose last element does not fit a `float64`: no error on the first,
an error on the second. -/
theorem parseMsg_error_iff_slots_witness :
    (¬ ∃ err, (parseMsg (.array [.number "5".toList, .number "100".toList, .array [],
        .number "7".toList])).result = .returned (some err)) ∧
      ∃ err, (parseMsg (.array [.number "5".toList, .number "100".toList, .array [],
        .number "1e999".toList])).result = .returned (some err) :=
  ⟨fun h => absurd
      ((parseMsg_error_iff_slots
        (.array [.number "5".toList, .number "100".toList, .array [], .number "7".toList])
        [.number "5".toList, .number "100".toList, .array [], .number "7".toList]
        (by decide) rfl (by decide)).1 h)
      (by set_option exponentiation.threshold 2000 in decide),
    (parseMsg_error_iff_slots
      (.array [.number "5".toList, .number "100".toList, .array [], .number "1e999".toList])
      [.number "5".toList, .number "100".toList, .array [], .number "1e999".toList]
      (by decide) rfl (by decide)).2
      (by set_option exponentiation.threshold 2000 in decide)⟩

/-- C6 is false as stated: in the 3-element frame `[5,100,[[7,1]]]` the first element of
the record is the number 7, and `parseMsg` logs two lines and returns nil. -/
theorem parseMsg_nonstring_tag_counterexample :
    parseMsg (.array [.number "5".toList, .number "100".toList,
        .array [.array [.number "7".toList, .number "1".toList]]]) =
      ⟨[.cannotUnmarshal "7".toList, .unknownType "7".toList], .returned none⟩ := by
  decide

/-- C6 (amended): for every 3-element frame `[c, s, records]` whose elements fit their
variables, `parseMsg` returns no error although a record `[v0, ...]` of it has a first
element `v0` that is not a JSON string.  When the loop reaches the record, that is when
no record before it panics, the record is logged as "can not unmarshal" (unless `v0` is
`null`) and as "unknown type", both with the text of `v0`, and the loop goes on with the
records after it: the log and the result of the frame continue with theirs. -/
theorem parseMsg_nonstring_tag (rawMessage c s r : JSON) (pre post : List (List RawMessage))
    (v0 : RawMessage) (rest : List RawMessage)
    (_hvalid : rawMessage.valid = true)
    (hframe : rawMessage.arrayElems = some [c, s, r])
    (hc : json.intSlotOK c = true) (hs : json.intSlotOK s = true)
    (hrecs : json.unmarshalRecords r = .ok (pre ++ (v0 :: rest) :: post))
    (hv0 : ∀ lit, v0 ≠ .string lit) :
    (∀ err, (parseMsg rawMessage).result ≠ .returned (some err)) ∧
      ((parseRecords pre).result = .returned none →
        (parseMsg rawMessage).result = (parseRecords post).result ∧
        (v0 = .null → (parseMsg rawMessage).logs =
          (parseRecords pre).logs ++ .unknownType v0.raw :: (parseRecords post).logs) ∧
        (v0 ≠ .null → (parseMsg rawMessage).logs =
          (parseRecords pre).logs ++
            .cannotUnmarshal v0.raw :: .unknownType v0.raw :: (parseRecords post).logs)) := by
  have htrim : v0.trim = v0 :=
    unmarshalRecords_trimmed r _ hrecs (v0 :: rest) (by simp) v0 (by simp)
  have hall : ∀ logs, parseRecord (v0 :: rest) = some logs →
      (∀ err, (parseMsg rawMessage).result ≠ .returned (some err)) ∧
      ((parseRecords pre).result = .returned none →
        (parseMsg rawMessage).logs =
            (parseRecords pre).logs ++ (logs ++ (parseRecords post).logs) ∧
          (parseMsg rawMessage).result = (parseRecords post).result) := fun logs hrec =>
    ⟨(parseMsg_at_record rawMessage c s r pre post _ logs hframe hc hs hrecs hrec).1,
      (parseMsg_at_record rawMessage c s r pre post _ logs hframe hc hs hrecs hrec).2.1⟩
  by_cases hnull : v0 = .null
  · have hrec : parseRecord (v0 :: rest) = some [.unknownType v0.raw] :=
      parseRecord_unknown v0 rest [] (unmarshalString_of_null v0 (by rw [htrim, hnull]))
        (by decide) (by decide) (by decide)
    refine ⟨(hall _ hrec).1, fun hpre => ⟨((hall _ hrec).2 hpre).2, fun _ => ?_, fun h => ?_⟩⟩
    · exact ((hall _ hrec).2 hpre).1
    · exact absurd hnull h
  · have hrec : parseRecord (v0 :: rest) =
        some [.cannotUnmarshal v0.raw, .unknownType v0.raw] :=
      parseRecord_cannotUnmarshal v0 rest _
        (unmarshalString_of_other v0 (by rw [htrim]; exact hv0) (by rw [htrim]; exact hnull))
    refine ⟨(hall _ hrec).1, fun hpre => ⟨((hall _ hrec).2 hpre).2, fun h => ?_, fun _ => ?_⟩⟩
    · exact absurd h hnull
    · exact ((hall _ hrec).2 hpre).1

/-- C6 (amended) at the frame `[5, 100, [["x"], [7, 1]]]`, written with a space after each
comma: no error is returned, and after the record `["x"]` the record `[7, 1]` is logged as
"can not unmarshal 7" and "unknown type 7". -/
theorem parseMsg_nonstring_tag_witness :
    (∀ err, (parseMsg (.array [.number "5".toList,
        .spaced " ".toList (.number "100".toList) [],
        .spaced " ".toList (.array [.array [.string "x".toList],
          .spaced " ".toList (.array [.number "7".toList,
            .spaced " ".toList (.number "1".toList) []]) []]) []])).result ≠
        .returned (some err)) ∧
      (parseMsg (.array [.number "5".toList,
        .spaced " ".toList (.number "100".toList) [],
        .spaced " ".toList (.array [.array [.string "x".toList],
          .spaced " ".toList (.array [.number "7".toList,
            .spaced " ".toList (.number "1".toList) []]) []]) []])).logs =
        (parseRecords [[.string "x".toList]]).logs ++
          .cannotUnmarshal (JSON.number "7".toList).raw ::
            .unknownType (JSON.number "7".toList).raw :: (parseRecords []).logs :=
  ⟨(parseMsg_nonstring_tag
      (.array [.number "5".toList,
        .spaced " ".toList (.number "100".toList) [],
        .spaced " ".toList (.array [.array [.string "x".toList],
          .spaced " ".toList (.array [.number "7".toList,
            .spaced " ".toList (.number "1".toList) []]) []]) []])
      (.number "5".toList) (.spaced " ".toList (.number "100".toList) [])
      (.spaced " ".toList (.array [.array [.string "x".toList],
          .spaced " ".toList (.array [.number "7".toList,
            .spaced " ".toList (.number "1".toList) []]) []]) [])
      [[.string "x".toList]] [] (.number "7".toList) [.number "1".toList]
      (by decide) rfl (by decide) (by decide) rfl (fun _ h => JSON.noConfusion h)).1,
    (((parseMsg_nonstring_tag
      (.array [.number "5".toList,
        .spaced " ".toList (.number "100".toList) [],
        .spaced " ".toList (.array [.array [.string "x".toList],
          .spaced " ".toList (.array [.number "7".toList,
            .spaced " ".toList (.number "1".toList) []]) []]) []])
      (.number "5".toList) (.spaced " ".toList (.number "100".toList) [])
      (.spaced " ".toList (.array [.array [.string "x".toList],
          .spaced " ".toList (.array [.number "7".toList,
            .spaced " ".toList (.number "1".toList) []]) []]) [])
      [[.string "x".toList]] [] (.number "7".toList) [.number "1".toList]
      (by decide) rfl (by decide) (by decide) rfl (fun _ h => JSON.noConfusion h)).2 (by decide)).2.2 (fun h => JSON.noConfusion h))⟩

/-- C10: a record whose first element is a JSON string that decodes to a tag other than
"i", "o" and "t" makes `parseMsg` log one "unknown type" line with the raw tag, the string
as it is written in the frame, whatever else the record holds.  The frame never ends with
an error, it ends as a frame with the same records but this one ends, and when the loop
reaches the record (no record before it panics) it goes on with the records after it. -/
theorem parseMsg_unknown_tag (rawMessage c s r : JSON) (pre post : List (List RawMessage))
    (lit tag : GoString) (rest : List RawMessage)
    (_hvalid : rawMessage.valid = true)
    (hframe : rawMessage.arrayElems = some [c, s, r])
    (hc : json.intSlotOK c = true) (hs : json.intSlotOK s = true)
    (hrecs : json.unmarshalRecords r = .ok (pre ++ (.string lit :: rest) :: post))
    (hlit : json.unquote lit = some tag)
    (htag : tag ≠ "i".toList ∧ tag ≠ "o".toList ∧ tag ≠ "t".toList) :
    parseRecord (.string lit :: rest) = some [.unknownType (dquote :: lit ++ [dquote])] ∧
      (∀ err, (parseMsg rawMessage).result ≠ .returned (some err)) ∧
      (∀ rawMessage1 r1 : JSON, rawMessage1.arrayElems = some [c, s, r1] →
        json.unmarshalRecords r1 = .ok (pre ++ post) →
        (parseMsg rawMessage).result = (parseMsg rawMessage1).result) ∧
      ((parseRecords pre).result = .returned none →
        (parseMsg rawMessage).logs =
            (parseRecords pre).logs ++
              .unknownType (dquote :: lit ++ [dquote]) :: (parseRecords post).logs ∧
          (parseMsg rawMessage).result = (parseRecords post).result) := by
  have hrec : parseRecord (.string lit :: rest) =
      some [.unknownType (dquote :: lit ++ [dquote])] :=
    parseRecord_unknown (.string lit) rest tag
      (unmarshalString_of_string _ lit tag rfl hlit) htag.1 htag.2.1 htag.2.2
  have hat := parseMsg_at_record rawMessage c s r pre post _ _ hframe hc hs hrecs hrec
  refine ⟨hrec, hat.1, fun rawMessage1 r1 hframe1 hrecs1 => ?_, hat.2.1⟩
  rw [hat.2.2, parseMsg_of_frame rawMessage1 c s r1 _ hframe1 hc hs hrecs1]

/-- A tag written with an escape is decoded before it is compared: the one-element record
`["\u006f"]` is an "o" record, and the access `v[1]` panics. -/
theorem parseMsg_escaped_tag :
    json.unmarshalString (.string "\\u006f".toList) = .ok "o".toList ∧
      parseMsg (.array [.number "5".toList, .number "100".toList,
        .array [.array [.string "\\u006f".toList]]]) = ⟨[], .panicked⟩ :=
  ⟨rfl, by decide⟩

/-- C10 at the frame `[5,100,[["\u0078",1,2],["o",1,"0.5","2.0","1600000000000"]]]`, whose
first tag is the letter x written as an escape: one "unknown type" line with the raw tag,
then the "o" record, and `nil`, as for the frame without the first record. -/
theorem parseMsg_unknown_tag_witness :
    parseMsg (.array [.number "5".toList, .number "100".toList, .array [
        .array [.string "\\u0078".toList, .number "1".toList, .number "2".toList],
        .array [.string "o".toList, .number "1".toList, .string "0.5".toList,
          .string "2.0".toList, .string "1600000000000".toList]]]) =
      ⟨[.unknownType "\"\\u0078\"".toList,
        .order "1".toList "0.".toList "2.".toList "160000000000".toList], .returned none⟩ ∧
    (parseMsg (.array [.number "5".toList, .number "100".toList, .array [
        .array [.string "\\u0078".toList, .number "1".toList, .number "2".toList],
        .array [.string "o".toList, .number "1".toList, .string "0.5".toList,
          .string "2.0".toList, .string "1600000000000".toList]]])).result =
      (parseMsg (.array [.number "5".toList, .number "100".toList, .array [
        .array [.string "o".toList, .number "1".toList, .string "0.5".toList,
          .string "2.0".toList, .string "1600000000000".toList]]])).result :=
  ⟨by decide,
    (parseMsg_unknown_tag
      (.array [.number "5".toList, .number "100".toList, .array [
        .array [.string "\\u0078".toList, .number "1".toList, .number "2".toList],
        .array [.string "o".toList, .number "1".toList, .string "0.5".toList,
          .string "2.0".toList, .string "1600000000000".toList]]])
      (.number "5".toList) (.number "100".toList) _ []
      [[.string "o".toList, .number "1".toList, .string "0.5".toList,
          .string "2.0".toList, .string "1600000000000".toList]]
      "\\u0078".toList "x".toList [.number "1".toList, .number "2".toList]
      (by decide) rfl (by decide) (by decide) rfl (by decide) (by decide)).2.2.1
      (.array [.number "5".toList, .number "100".toList, .array [
        .array [.string "o".toList, .number "1".toList, .string "0.5".toList,
          .string "2.0".toList, .string "1600000000000".toList]]]) _ rfl rfl⟩

/-- C9 is false as stated: the inner text of the token `"99999999999999999999"` (twenty
nines in quotes) is out of range for `strconv.Atoi`, and `byteToInt` returns
9223372036854775807 on the token, not 0. -/
theorem byteToInt_out_of_range_counterexample :
    (strconv.Atoi (innerText "\"99999999999999999999\"".toList)).2 = some .ErrRange ∧
      byteToInt "\"99999999999999999999\"".toList = some 9223372036854775807 := by
  decide

/-- C9 (amended): for every token on which `jsByteToStr` returns a text, `byteToInt`
returns 0 when `strconv.Atoi` rejects that text with a syntax error, and returns the
nearest machine integer, `2^63 - 1` or, for a text that starts with `-`, `-2^63`, when
`Atoi` rejects it as out of range. -/
theorem byteToInt_rejected (val s : GoString) (h : jsByteToStr val = some s) :
    ((strconv.Atoi s).2 = some .ErrSyntax → byteToInt val = some 0) ∧
      ((strconv.Atoi s).2 = some .ErrRange →
        byteToInt val = some (if s.head? = some '-' then -(2 : Int) ^ 63 else 2 ^ 63 - 1)) := by
  unfold byteToInt
  rw [h]
  constructor
  · intro hs
    simp [(Atoi_rejected s).1 hs]
  · intro hr
    simp [(Atoi_rejected s).2 hr]

/-- C9 (amended) at the token `"12a4"`: the text `12a` is a syntax error for `Atoi` and
`byteToInt` returns 0. -/
theorem byteToInt_rejected_witness :
    jsByteToStr "\"12a4\"".toList = some "12a".toList ∧
      byteToInt "\"12a4\"".toList = some 0 :=
  ⟨by decide,
    (byteToInt_rejected "\"12a4\"".toList "12a".toList (by decide)).1 (by decide)⟩


/-! ## Lemmas on the fetch loop -/

theorem fetcher_returns (conn : Conn) (ctx : Context) (hne : conn.inbound ≠ [])
    (h : ∀ f, Except.ok f ∈ conn.inbound → (parseMsg f).result ≠ .panicked) :
    ∃ logs err, fetcher conn ctx =
      ⟨⟨conn.writeFails, conn.inbound.tail, conn.trace ++ [Event.read]⟩, logs,
        .returned (some err)⟩ := by
  rcases conn with ⟨w, inbound, tr⟩
  rcases inbound with _ | ⟨msg, rest⟩
  · exact absurd rfl hne
  · cases msg with
    | error code => exact ⟨_, _, fetcher_error w code rest tr ctx⟩
    | ok f =>
      have hf : (parseMsg f).result ≠ .panicked := h f (by simp)
      rw [fetcher_ok]
      cases hr : (parseMsg f).result with
      | panicked => exact absurd hr hf
      | returned err => exact ⟨_, _, rfl⟩

theorem fetchPairs_cons_returned (conn conn1 : Conn) (pair : GoString) (rest : List GoString)
    (logs : List LogEntry) (err : Option GoError)
    (h : fetchOneCurPair conn pair = ⟨conn1, logs, .returned err⟩) :
    fetchPairs conn (pair :: rest) =
      ⟨(fetchPairs conn1 rest).conn, logs ++ (fetchPairs conn1 rest).logs,
        (fetchPairs conn1 rest).result⟩ := by
  rw [fetchPairs, h]

theorem fetchPairs_cons_panicked (conn conn1 : Conn) (pair : GoString) (rest : List GoString)
    (logs : List LogEntry) (h : fetchOneCurPair conn pair = ⟨conn1, logs, .panicked⟩) :
    fetchPairs conn (pair :: rest) = ⟨conn1, logs, .panicked⟩ := by
  rw [fetchPairs, h]

theorem fetchPairs_cons_blocked (conn conn1 : Conn) (pair : GoString) (rest : List GoString)
    (logs : List LogEntry) (h : fetchOneCurPair conn pair = ⟨conn1, logs, .blocked⟩) :
    fetchPairs conn (pair :: rest) = ⟨conn1, logs, .blocked⟩ := by
  rw [fetchPairs, h]

theorem fetchOneCurPair_returns (conn : Conn) (pair : GoString) (hne : conn.inbound ≠ [])
    (h : ∀ f, Except.ok f ∈ conn.inbound → (parseMsg f).result ≠ .panicked) :
    ∃ conn1 logs err, fetchOneCurPair conn pair = ⟨conn1, logs, .returned err⟩ ∧
      (conn1.inbound = conn.inbound ∨ conn1.inbound = conn.inbound.tail) := by
  rcases except_ok_or_error (channel pair) with ⟨ch, hch⟩ | ⟨e, he⟩
  · rcases conn with ⟨w, inbound, tr⟩
    by_cases hw : w.head? = some true
    · rcases w with _ | ⟨fails, rest⟩
      · simp at hw
      · simp at hw
        subst hw
        exact ⟨_, _, _, fetchOneCurPair_send_fails rest inbound tr pair ch hch, Or.inl rfl⟩
    · rw [fetchOneCurPair_send_ok w inbound tr pair ch hch hw]
      obtain ⟨logs, err, hf⟩ := fetcher_returns
        ⟨w.tail, inbound, tr ++ [Event.write TextMessage (subscribeCmd ch)]⟩
        (WithTimeout timeOut) hne h
      exact ⟨_, _, _, hf, Or.inr rfl⟩
  · exact ⟨conn, [], some e, fetchOneCurPair_of_channel_error conn pair e he, Or.inl rfl⟩

theorem fetchPairs_returns_nil (pairs : List GoString) (conn : Conn)
    (h : ∀ f, Except.ok f ∈ conn.inbound → (parseMsg f).result ≠ .panicked)
    (hreads : pairs.length ≤ conn.inbound.length) :
    (fetchPairs conn pairs).result = .returned none := by
  induction pairs generalizing conn with
  | nil => rfl
  | cons pair rest ih =>
    have hne : conn.inbound ≠ [] := by
      intro hnil
      rw [hnil] at hreads
      simp at hreads
    obtain ⟨conn1, logs, err, hstep, hin⟩ := fetchOneCurPair_returns conn pair hne h
    rw [fetchPairs_cons_returned conn conn1 pair rest logs err hstep]
    apply ih
    · intro f hf
      rcases hin with hin | hin
      · exact h f (hin ▸ hf)
      · rw [hin] at hf
        exact h f (List.mem_of_mem_tail hf)
    · rcases hin with hin | hin
      · rw [hin]
        simp only [List.length_cons] at hreads
        omega
      · rw [hin, List.length_tail]
        simp only [List.length_cons] at hreads
        omega

theorem fetchAndOutput_ok (c : Conn) (cfg : Conf) :
    fetchAndOutput (.ok c) cfg =
      if (fetchPairs c cfg.Poloniex).result = .blocked then fetchPairs c cfg.Poloniex
      else ⟨(fetchPairs c cfg.Poloniex).conn.Close, (fetchPairs c cfg.Poloniex).logs,
        (fetchPairs c cfg.Poloniex).result⟩ := by
  simp only [fetchAndOutput]
  rcases fetchPairs c cfg.Poloniex with ⟨conn, logs, result⟩
  cases result <;> simp

/-- In every run in which the dial succeeds, no decoding panics and the peer answers every
read, `fetchAndOutput` returns nil, for every list of instruments and whatever the sends
and the reads on the connection return. -/
theorem fetchAndOutput_nil_of_reads_return (c : Conn) (cfg : Conf)
    (h : ∀ f, Except.ok f ∈ c.inbound → (parseMsg f).result ≠ .panicked)
    (hreads : cfg.Poloniex.length ≤ c.inbound.length) :
    (fetchAndOutput (.ok c) cfg).result = .returned none := by
  have hres := fetchPairs_returns_nil cfg.Poloniex c h hreads
  rw [fetchAndOutput_ok, hres]
  simp [hres]

/-- Each call of `fetcher` makes exactly one read on the connection and takes at most one
message off the inbound stream.  If the read never returns, neither does `fetcher`.  If
the read fails, `fetcher` returns the read error and logs nothing.  Otherwise it decodes
that one frame: its log is the log of one call of `parseMsg` on the frame (plus the "parse
error" line when `parseMsg` returns an error) and, when that decoding does not panic, it
returns the context's error. -/
theorem fetcher_one_read (conn : Conn) (ctx : Context) :
    (fetcher conn ctx).conn.trace = conn.trace ++ [Event.read] ∧
      (fetcher conn ctx).conn.inbound = conn.inbound.tail ∧
      (conn.ReadMessage.2 = none →
        (fetcher conn ctx).result = .blocked ∧ (fetcher conn ctx).logs = []) ∧
      (∀ err, conn.ReadMessage.2 = some (.error err) →
        (fetcher conn ctx).result = .returned (some err) ∧ (fetcher conn ctx).logs = []) ∧
      (∀ f, conn.ReadMessage.2 = some (.ok f) →
        ((fetcher conn ctx).logs = (parseMsg f).logs ∨
          ∃ err, (parseMsg f).result = .returned (some err) ∧
            (fetcher conn ctx).logs = (parseMsg f).logs ++ [.parseError err]) ∧
        ((parseMsg f).result ≠ .panicked →
          (fetcher conn ctx).result = .returned (some ctx.err))) := by
  refine ⟨by rw [fetcher_conn], by rw [fetcher_conn], ?_, ?_, ?_⟩
  · intro hread
    rcases conn with ⟨w, inbound, tr⟩
    rcases inbound with _ | ⟨msg, rest⟩
    · exact ⟨rfl, rfl⟩
    · cases msg <;> simp [Conn.ReadMessage] at hread
  · intro err hread
    rcases conn with ⟨w, inbound, tr⟩
    rcases inbound with _ | ⟨msg, rest⟩
    · simp [Conn.ReadMessage] at hread
    · cases msg with
      | error code =>
        simp only [Conn.ReadMessage, Option.some.injEq, Except.error.injEq] at hread
        subst hread
        exact ⟨rfl, rfl⟩
      | ok f => simp [Conn.ReadMessage] at hread
  · intro f hread
    rcases conn with ⟨w, inbound, tr⟩
    rcases inbound with _ | ⟨msg, rest⟩
    · simp [Conn.ReadMessage] at hread
    · cases msg with
      | error code => simp [Conn.ReadMessage] at hread
      | ok g =>
        simp only [Conn.ReadMessage, Option.some.injEq, Except.ok.injEq] at hread
        subst hread
        rw [fetcher_ok]
        cases hr : (parseMsg g).result with
        | panicked => simp
        | returned err => cases err <;> simp

/-! ## The fetch loop -/

/-- C12 (code defect): with the instruments `BTC_USDT`, `ETH_USDT` and a connection on
which the first send fails (and the one read, made for `ETH_USDT`, returns a network
error), `fetchOneCurPair` returns the error "error during sending message ..." for
`BTC_USDT`, the subscribe request of `ETH_USDT` is still written, and `fetchAndOutput`
then returns nil and logs nothing: the failure reaches nobody. -/
theorem fetchAndOutput_drops_send_failure :
    (fetchOneCurPair ⟨[true], [.error 2], []⟩ "BTC_USDT".toList).result =
        .returned (some (.text ("error during sending message ".toList ++
          subscribeCmd "USDT_BTC".toList))) ∧
      (fetchAndOutput (.ok ⟨[true], [.error 2], []⟩)
        ⟨["BTC_USDT".toList, "ETH_USDT".toList]⟩).conn.trace =
        [.write TextMessage (subscribeCmd "USDT_BTC".toList),
          .write TextMessage (subscribeCmd "USDT_ETH".toList), .read, .close] ∧
      (fetchAndOutput (.ok ⟨[true], [.error 2], []⟩)
        ⟨["BTC_USDT".toList, "ETH_USDT".toList]⟩).logs = [] ∧
      (fetchAndOutput (.ok ⟨[true], [.error 2], []⟩)
        ⟨["BTC_USDT".toList, "ETH_USDT".toList]⟩).result = .returned none := by
  decide

/-- C14 (code defect): on a stream whose first frame `{"error":"x"}` fails to decode and
whose second frame is `[5,100,[]]`, `fetcher` logs the parse error and returns the
deadline error after one read; the second frame is left unread. -/
theorem fetcher_stops_after_failed_frame :
    (parseMsg (.object [("error".toList, .string "x".toList)])).result =
        .returned (some (.unmarshalType "object".toList)) ∧
      (fetcher ⟨[], [.ok (.object [("error".toList, .string "x".toList)]),
          .ok (.array [.number "5".toList, .number "100".toList, .array []])], []⟩
        (WithTimeout timeOut)).conn.trace = [.read] ∧
      (fetcher ⟨[], [.ok (.object [("error".toList, .string "x".toList)]),
          .ok (.array [.number "5".toList, .number "100".toList, .array []])], []⟩
        (WithTimeout timeOut)).conn.inbound.length = 1 ∧
      (fetcher ⟨[], [.ok (.object [("error".toList, .string "x".toList)]),
          .ok (.array [.number "5".toList, .number "100".toList, .array []])], []⟩
        (WithTimeout timeOut)).logs = [.parseError (.unmarshalType "object".toList)] ∧
      (fetcher ⟨[], [.ok (.object [("error".toList, .string "x".toList)]),
          .ok (.array [.number "5".toList, .number "100".toList, .array []])], []⟩
        (WithTimeout timeOut)).result = .returned (some .deadlineExceeded) := by
  decide

/-- C17 (code defect): the frame `[5,100,[[]]]` makes `parseMsg` panic: the access `v[0]`
of line 131 is out of range for the empty record. -/
theorem parseMsg_empty_record_panics :
    parseRecord [] = none ∧
      parseMsg (.array [.number "5".toList, .number "100".toList,
        .array [.array []]]) = ⟨[], .panicked⟩ := by
  decide

/-- C19 (code defect): when the frame read is `[5,100,[[]]]`, `fetcher` does not return
the context's error: the access `v[0]` of `parseMsg` on the empty record panics and the
panic ends the call, after the one read. -/
theorem fetcher_panics_on_empty_record :
    (fetcher ⟨[], [.ok (.array [.number "5".toList, .number "100".toList,
          .array [.array []]])], []⟩ (WithTimeout timeOut)).result = .panicked ∧
      (fetcher ⟨[], [.ok (.array [.number "5".toList, .number "100".toList,
          .array [.array []]])], []⟩ (WithTimeout timeOut)).result ≠
        .returned (some (WithTimeout timeOut).err) ∧
      (fetcher ⟨[], [.ok (.array [.number "5".toList, .number "100".toList,
          .array [.array []]])], []⟩ (WithTimeout timeOut)).conn.trace = [.read] := by
  decide

/-- C20 (code defect): the dial succeeds, the instrument is `BTC_USDT`, and the peer sends
nothing and keeps the connection open.  No decoding panics, nothing is decoded, yet
`fetchAndOutput` does not return nil: it does not return.  After the subscribe write the
call is blocked in the read of `fetcher`, which has no deadline; the timeout of line 71 is
looked at only after a frame has been read, and the connection is never closed. -/
theorem fetchAndOutput_blocks_on_silent_peer :
    (∀ f, Except.ok f ∈ (⟨[], [], []⟩ : Conn).inbound → (parseMsg f).result ≠ .panicked) ∧
      (fetchAndOutput (.ok ⟨[], [], []⟩) ⟨["BTC_USDT".toList]⟩).result = .blocked ∧
      (fetchAndOutput (.ok ⟨[], [], []⟩) ⟨["BTC_USDT".toList]⟩).result ≠ .returned none ∧
      (fetchAndOutput (.ok ⟨[], [], []⟩) ⟨["BTC_USDT".toList]⟩).conn.trace =
        [.write TextMessage (subscribeCmd "USDT_BTC".toList), .read] ∧
      (fetchAndOutput (.ok ⟨[], [], []⟩) ⟨["BTC_USDT".toList]⟩).logs = [] :=
  ⟨fun _ hf => absurd hf (List.not_mem_nil _), by decide, by decide, by decide, by decide⟩

/-! ## Subscription -/

theorem channel_of_parts (B Q : GoString) (hB : '_' ∉ B) (hQ : '_' ∉ Q) :
    channel (B ++ '_' :: Q) = .ok (Q ++ '_' :: B) := by
  unfold channel
  rw [Split_append_sep B Q '_' hB, Split_of_not_mem Q '_' hQ]
  simp [strings.Join]

theorem fetchOneCurPair_trace_cases (conn : Conn) (pair ch : GoString)
    (h : channel pair = .ok ch) :
    (fetchOneCurPair conn pair).conn.trace =
        conn.trace ++ [Event.write TextMessage (subscribeCmd ch)] ∨
      (fetchOneCurPair conn pair).conn.trace =
        conn.trace ++ [Event.write TextMessage (subscribeCmd ch), Event.read] := by
  rcases conn with ⟨w, inbound, tr⟩
  by_cases hw : w.head? = some true
  · rcases w with _ | ⟨fails, rest⟩
    · simp at hw
    · simp at hw
      subst hw
      rw [fetchOneCurPair_send_fails rest inbound tr pair ch h]
      exact Or.inl rfl
  · rw [fetchOneCurPair_send_ok w inbound tr pair ch h hw, fetcher_conn]
    right
    simp

/-- C11 is false as stated: for `BTC_USDT` the message written has spaces after the
opening brace, after each colon and comma and before the closing brace; the bytes
`{"command":"subscribe","channel":"USDT_BTC"}` are not what is sent. -/
theorem subscribe_bytes_counterexample :
    (fetchOneCurPair ⟨[], [], []⟩ "BTC_USDT".toList).conn.trace =
        [.write TextMessage
          "\x7b \"command\": \"subscribe\", \"channel\": \"USDT_BTC\" \x7d".toList, .read] ∧
      Event.write TextMessage
          "\x7b\"command\":\"subscribe\",\"channel\":\"USDT_BTC\"\x7d".toList ∉
        (fetchOneCurPair ⟨[], [], []⟩ "BTC_USDT".toList).conn.trace := by
  decide

/-- C11 (amended): for every symbol `B_Q` with `B` and `Q` free of `_`, `fetchOneCurPair`
makes exactly one write on the connection, a text message whose bytes are
`{ "command": "subscribe", "channel": "Q_B" }` (one space after the opening brace, after
each colon and after the comma, and one before the closing brace); the only other call
it may make is the read that follows a successful send. -/
theorem fetchOneCurPair_subscribe_bytes (conn : Conn) (B Q : GoString)
    (hB : '_' ∉ B) (hQ : '_' ∉ Q) :
    (fetchOneCurPair conn (B ++ '_' :: Q)).conn.trace =
        conn.trace ++ [Event.write TextMessage
          ("\x7b \"command\": \"subscribe\", \"channel\": \"".toList ++ (Q ++ '_' :: B) ++
            "\" \x7d".toList)] ∨
      (fetchOneCurPair conn (B ++ '_' :: Q)).conn.trace =
        conn.trace ++ [Event.write TextMessage
          ("\x7b \"command\": \"subscribe\", \"channel\": \"".toList ++ (Q ++ '_' :: B) ++
            "\" \x7d".toList), Event.read] :=
  fetchOneCurPair_trace_cases conn (B ++ '_' :: Q) (Q ++ '_' :: B) (channel_of_parts B Q hB hQ)

/-- C11 (amended) at `BTC_USDT` on a fresh connection: one write of
`{ "command": "subscribe", "channel": "USDT_BTC" }`, then one read. -/
theorem fetchOneCurPair_subscribe_bytes_witness :
    (fetchOneCurPair ⟨[], [], []⟩ "BTC_USDT".toList).conn.trace =
        [] ++ [Event.write TextMessage
          ("\x7b \"command\": \"subscribe\", \"channel\": \"".toList ++ "USDT_BTC".toList ++
            "\" \x7d".toList)] ∨
      (fetchOneCurPair ⟨[], [], []⟩ "BTC_USDT".toList).conn.trace =
        [] ++ [Event.write TextMessage
          ("\x7b \"command\": \"subscribe\", \"channel\": \"".toList ++ "USDT_BTC".toList ++
            "\" \x7d".toList), Event.read] :=
  fetchOneCurPair_subscribe_bytes ⟨[], [], []⟩ "BTC".toList "USDT".toList (by decide)
    (by decide)

theorem fetchPairs_run (parts : List (GoString × GoString)) (conn : Conn)
    (hparts : ∀ bq ∈ parts, '_' ∉ bq.1 ∧ '_' ∉ bq.2)
    (hsend : ∀ b ∈ conn.writeFails, b = false)
    (hsafe : ∀ f, Except.ok f ∈ conn.inbound → (parseMsg f).result ≠ .panicked) :
    (fetchPairs conn (parts.map fun bq => bq.1 ++ '_' :: bq.2)).conn.trace =
        conn.trace ++ ((parts.take (conn.inbound.length + 1)).flatMap fun bq =>
          [Event.write TextMessage (subscribeCmd (bq.2 ++ '_' :: bq.1)), Event.read]) ∧
      (fetchPairs conn (parts.map fun bq => bq.1 ++ '_' :: bq.2)).result =
        if parts.length ≤ conn.inbound.length then .returned none else .blocked := by
  induction parts generalizing conn with
  | nil => simp [fetchPairs]
  | cons bq rest ih =>
    rcases conn with ⟨w, inbound, tr⟩
    have hbq := hparts bq (List.mem_cons_self _ _)
    have hch := channel_of_parts bq.1 bq.2 hbq.1 hbq.2
    have hw : w.head? ≠ some true := by
      rcases w with _ | ⟨b, ws⟩
      · simp
      · have := hsend b (List.mem_cons_self _ _)
        simp [this]
    have hstep := fetchOneCurPair_send_ok w inbound tr _ _ hch hw
    rcases inbound with _ | ⟨msg, more⟩
    · rw [fetcher_nil] at hstep
      rw [List.map_cons, fetchPairs_cons_blocked _ _ _ _ _ hstep]
      simp
    · obtain ⟨logs, err, hf⟩ := fetcher_returns
        ⟨w.tail, msg :: more,
          tr ++ [Event.write TextMessage (subscribeCmd (bq.2 ++ '_' :: bq.1))]⟩
        (WithTimeout timeOut) (by simp) hsafe
      rw [hf] at hstep
      rw [List.map_cons, fetchPairs_cons_returned _ _ _ _ logs (some err) hstep]
      have hrest := ih ⟨w.tail, more,
          tr ++ [Event.write TextMessage (subscribeCmd (bq.2 ++ '_' :: bq.1))] ++
            [Event.read]⟩
        (fun x hx => hparts x (List.mem_cons_of_mem _ hx))
        (fun b hb => hsend b (List.mem_of_mem_tail hb))
        (fun f hf1 => hsafe f (List.mem_cons_of_mem _ hf1))
      simp only [List.tail_cons] at hrest ⊢
      rw [hrest.1, hrest.2]
      simp [List.flatMap_cons]

/-- C13 is false as stated: with the instruments `BTC_USDT` and `ETH_USDT` and a peer that
answers each subscription with a frame, the calls on the connection are write, read,
write, read, close; the subscribe write for `ETH_USDT` comes after the first read. -/
theorem subscribe_order_counterexample :
    (fetchAndOutput (.ok ⟨[], [.ok (.array [.number "5".toList, .number "100".toList,
        .array []]), .ok (.array [.number "6".toList, .number "1".toList, .array []])], []⟩)
      ⟨["BTC_USDT".toList, "ETH_USDT".toList]⟩).conn.trace =
      [.write TextMessage (subscribeCmd "USDT_BTC".toList), .read,
        .write TextMessage (subscribeCmd "USDT_ETH".toList), .read, .close] ∧
    List.indexOf Event.read
        (fetchAndOutput (.ok ⟨[], [.ok (.array [.number "5".toList, .number "100".toList,
          .array []]), .ok (.array [.number "6".toList, .number "1".toList, .array []])], []⟩)
          ⟨["BTC_USDT".toList, "ETH_USDT".toList]⟩).conn.trace <
      List.indexOf (Event.write TextMessage (subscribeCmd "USDT_ETH".toList))
        (fetchAndOutput (.ok ⟨[], [.ok (.array [.number "5".toList, .number "100".toList,
          .array []]), .ok (.array [.number "6".toList, .number "1".toList, .array []])], []⟩)
          ⟨["BTC_USDT".toList, "ETH_USDT".toList]⟩).conn.trace := by
  decide

/-- C13 (amended): in every run of `fetchAndOutput` over valid instruments
`B1_Q1, ..., Bn_Qn` in which every send succeeds, every read returns (the peer delivers a
frame or a read error for each of the n reads) and no decoding panics, the calls on the
connection are, in order, for each instrument its subscribe write immediately followed by
one read, and then the close: write 1, read, write 2, read, ..., write n, read, close.
Only the first subscribe write comes before the first read. -/
theorem fetchAndOutput_trace_interleaved (c : Conn) (parts : List (GoString × GoString))
    (hparts : ∀ bq ∈ parts, '_' ∉ bq.1 ∧ '_' ∉ bq.2)
    (hsend : ∀ b ∈ c.writeFails, b = false)
    (hreads : parts.length ≤ c.inbound.length)
    (hsafe : ∀ f, Except.ok f ∈ c.inbound → (parseMsg f).result ≠ .panicked) :
    (fetchAndOutput (.ok c) ⟨parts.map fun bq => bq.1 ++ '_' :: bq.2⟩).conn.trace =
      c.trace ++ (parts.flatMap fun bq =>
        [Event.write TextMessage (subscribeCmd (bq.2 ++ '_' :: bq.1)), Event.read]) ++
        [Event.close] := by
  have hrun := fetchPairs_run parts c hparts hsend hsafe
  rw [if_pos hreads, List.take_of_length_le (by omega)] at hrun
  rw [fetchAndOutput_ok]
  simp only [hrun.2, reduceCtorEq, if_false, Conn.Close, hrun.1]

/-- C13 (amended) at `BTC_USDT`, `ETH_USDT` on a connection that delivers two frames:
write, read, write, read, close. -/
theorem fetchAndOutput_trace_interleaved_witness :
    (fetchAndOutput (.ok ⟨[], [.ok (.array [.number "5".toList, .number "100".toList,
        .array []]), .ok (.array [.number "6".toList, .number "1".toList, .array []])], []⟩)
      ⟨[("BTC".toList, "USDT".toList), ("ETH".toList, "USDT".toList)].map
        fun bq => bq.1 ++ '_' :: bq.2⟩).conn.trace =
      [] ++ ([("BTC".toList, "USDT".toList), ("ETH".toList, "USDT".toList)].flatMap fun bq =>
        [Event.write TextMessage (subscribeCmd (bq.2 ++ '_' :: bq.1)), Event.read]) ++
        [Event.close] :=
  fetchAndOutput_trace_interleaved _ _ (by decide) (by decide) (by decide) (by
    intro f hf
    simp only [List.mem_cons, Except.ok.injEq, List.mem_singleton, List.not_mem_nil,
      or_false] at hf
    rcases hf with hf | hf <;> subst hf <;> decide)

/-- On a peer that stays open and silent the run of `fetchAndOutput` over `BTC_USDT`,
`ETH_USDT` stops in the first read: the trace is write 1, read, and nothing follows. -/
theorem fetchAndOutput_trace_silent_peer :
    (fetchAndOutput (.ok ⟨[], [], []⟩)
      ⟨["BTC_USDT".toList, "ETH_USDT".toList]⟩).conn.trace =
      [.write TextMessage (subscribeCmd "USDT_BTC".toList), .read] := by
  decide

/-! ## Sequence numbers -/

/-- C15 is false as stated: the frames `[5,100,[]]` and `[5,97,[]]` decode to channel 5
with the sequence numbers 100 and 97, and decoding the second one, also right after the
first on the same connection, logs nothing and raises nothing: `parseMsg` returns nil and
`fetcher` ends as after any other frame. -/
theorem sequence_regression_counterexample :
    json.unmarshalFrame (.array [.number "5".toList, .number "100".toList, .array []]) =
        .ok ⟨5, 100, []⟩ ∧
      json.unmarshalFrame (.array [.number "5".toList, .number "97".toList, .array []]) =
        .ok ⟨5, 97, []⟩ ∧
      parseMsg (.array [.number "5".toList, .number "97".toList, .array []]) =
        ⟨[], .returned none⟩ ∧
      (fetcher (fetcher ⟨[], [.ok (.array [.number "5".toList, .number "100".toList, .array []]),
          .ok (.array [.number "5".toList, .number "97".toList, .array []])], []⟩
        (WithTimeout timeOut)).conn (WithTimeout timeOut)).logs = [] ∧
      (fetcher (fetcher ⟨[], [.ok (.array [.number "5".toList, .number "100".toList, .array []]),
          .ok (.array [.number "5".toList, .number "97".toList, .array []])], []⟩
        (WithTimeout timeOut)).conn (WithTimeout timeOut)).result =
        .returned (some .deadlineExceeded) :=
  ⟨rfl, rfl, by decide, by decide, by decide⟩

/-- C15 (amended): `parseMsg` keeps no state between frames and does not look at the
sequence number it decodes: for every channel element `c` and record list `r`, the log
lines and the result of a frame are the same for any two sequence numbers, so a frame
whose sequence number is smaller than that of the frame before it is decoded like any
other, with no warning. -/
theorem parseMsg_ignores_seq (c s1 s2 r : JSON) (h1 : json.intSlotOK s1 = true)
    (h2 : json.intSlotOK s2 = true) :
    parseMsg (.array [c, s1, r]) = parseMsg (.array [c, s2, r]) := by
  obtain ⟨n1, hn1⟩ := (unmarshalInt_ok_iff s1 0).2 h1
  obtain ⟨n2, hn2⟩ := (unmarshalInt_ok_iff s2 0).2 h2
  simp only [parseMsg, json.unmarshalFrame, JSON.trim, json.unmarshalSlots, json.intSlot,
    List.getElem?_cons_zero, List.getElem?_cons_succ, hn1, hn2]
  cases json.unmarshalInt c 0 with
  | error e => rfl
  | ok n =>
    cases json.recordsSlot (some r) with
    | error e => rfl
    | ok recs => rfl

/-- C15 (amended) at channel 5 with the sequence numbers 100 and 97 and one "o" record:
both frames give the same run. -/
theorem parseMsg_ignores_seq_witness :
    parseMsg (.array [.number "5".toList, .number "100".toList,
        .array [.array [.string "o".toList, .number "1".toList, .string "0.5".toList,
          .string "2.0".toList, .string "1600000000000".toList]]]) =
      parseMsg (.array [.number "5".toList, .number "97".toList,
        .array [.array [.string "o".toList, .number "1".toList, .string "0.5".toList,
          .string "2.0".toList, .string "1600000000000".toList]]]) :=
  parseMsg_ignores_seq _ _ _ _ (by decide) (by decide)

/-! ## The channel mapping is an involution -/

theorem Split_join (s : GoString) (sep : Char) :
    strings.Join (strings.Split s sep) [sep] = s := by
  induction s with
  | nil => simp [strings.Split, strings.Join]
  | cons c cs ih =>
    rw [Split_cons]
    rcases hs : strings.Split cs sep with _ | ⟨p, ps⟩
    · exact absurd hs (Split_ne_nil cs sep)
    · rw [hs] at ih
      by_cases hc : c = sep
      · rw [if_pos hc]
        simp [strings.Join, ih, hc]
      · rw [if_neg hc]
        cases ps with
        | nil =>
          simp only [strings.Join] at ih ⊢
          rw [ih]
        | cons q qs =>
          simp only [strings.Join] at ih ⊢
          rw [← ih]
          simp

theorem Split_mem_no_sep (s : GoString) (sep : Char) :
    ∀ p ∈ strings.Split s sep, sep ∉ p := by
  induction s with
  | nil => simp [strings.Split]
  | cons c cs ih =>
    rw [Split_cons]
    rcases hs : strings.Split cs sep with _ | ⟨p, ps⟩
    · exact absurd hs (Split_ne_nil cs sep)
    · rw [hs] at ih
      by_cases hc : c = sep
      · rw [if_pos hc]
        intro q hq
        rcases List.mem_cons.1 hq with rfl | hq
        · simp
        · exact ih q hq
      · rw [if_neg hc]
        intro q hq
        rcases List.mem_cons.1 hq with rfl | hq
        · have hp := ih p (List.mem_cons_self _ _)
          intro hmem
          rcases List.mem_cons.1 hmem with h | h
          · exact hc h.symm
          · exact hp h
        · exact ih q (List.mem_cons_of_mem _ hq)

/-- C16: the symbol-to-channel mapping is its own inverse: for every symbol `s` with
exactly one separator `_`, the mapping gives a channel name, and the mapping applied to
that channel name gives `s` back. -/
theorem channel_involutive (s : GoString) (h : s.count '_' = 1) :
    ∃ ch, channel s = .ok ch ∧ channel ch = .ok s := by
  have hlen := Split_length s '_'
  rw [h] at hlen
  rcases hs : strings.Split s '_' with _ | ⟨p0, _ | ⟨p1, _ | ⟨p2, rest⟩⟩⟩
  · rw [hs] at hlen; simp at hlen
  · rw [hs] at hlen; simp at hlen
  · have hjoin := Split_join s '_'
    have hmem := Split_mem_no_sep s '_'
    rw [hs] at hjoin hmem
    have h0 : '_' ∉ p0 := hmem p0 (by simp)
    have h1 : '_' ∉ p1 := hmem p1 (by simp)
    have hs' : s = p0 ++ '_' :: p1 := by
      rw [← hjoin]
      simp [strings.Join]
    refine ⟨p1 ++ '_' :: p0, ?_, ?_⟩
    · rw [hs']
      exact channel_of_parts p0 p1 h0 h1
    · rw [hs']
      exact channel_of_parts p1 p0 h1 h0
  · rw [hs] at hlen; simp at hlen

/-- C16 at `BTC_USDT`: the channel name is `USDT_BTC`, and mapping it again gives
`BTC_USDT`. -/
theorem channel_involutive_witness :
    "BTC_USDT".toList.count '_' = 1 ∧
      ∃ ch, channel "BTC_USDT".toList = .ok ch ∧ channel ch = .ok "BTC_USDT".toList :=
  ⟨by decide, channel_involutive "BTC_USDT".toList (by decide)⟩

/-! ## The slice bounds of `jsByteToStr` -/

theorem jsByteToStr_eq_goSlice (val : GoString) (h : val ≠ []) :
    jsByteToStr val = goSlice val (jsBounds val).1 (jsBounds val).2 := by
  have hlen : val.length ≠ 0 := fun e => h (List.length_eq_zero.1 e)
  simp [jsByteToStr, jsBounds, hlen]

theorem goSlice_eq_none_iff (val : GoString) (first last : Int) :
    goSlice val first last = none ↔ ¬(0 ≤ first ∧ first ≤ last ∧ last ≤ (val.length : Int)) := by
  unfold goSlice
  split <;> simp_all

theorem jsBounds_singleton (a : Char) :
    jsBounds [a] = (if a = dquote then 1 else 0, if a = dquote then -1 else 0) := by
  by_cases h : a = dquote <;> simp [jsBounds, h]

theorem jsBounds_long (a z : Char) (mid : GoString) :
    jsBounds (a :: (mid ++ [z])) =
      (if a = dquote then 1 else 0,
        if z = dquote then (mid.length : Int) else (mid.length : Int) + 1) := by
  have hidx : (((a :: (mid ++ [z])).length : Int) - 1).toNat = mid.length + 1 := by
    simp
  have hget : (a :: (mid ++ [z])).get? (mid.length + 1) = some z := by
    simp [List.getElem?_append_right]
  unfold jsBounds
  simp only [hidx, hget, List.head?_cons, Option.some.injEq]
  by_cases hz : z = dquote <;> simp [hz]

theorem jsBounds_facts (val : GoString) (h : val ≠ []) :
    0 ≤ (jsBounds val).1 ∧ (jsBounds val).2 ≤ (val.length : Int) ∧
      ((jsBounds val).2 < (jsBounds val).1 ↔ (val = [dquote] ∨ val = [dquote, dquote])) := by
  rcases val with _ | ⟨a, rest⟩
  · exact absurd rfl h
  · rcases List.eq_nil_or_concat rest with rfl | ⟨mid, z, rfl⟩
    · rw [jsBounds_singleton]
      by_cases ha : a = dquote
      · simp [ha]
      · simp [ha]
    · rw [List.concat_eq_append] at h ⊢
      rw [jsBounds_long]
      have hlen : ((a :: (mid ++ [z])).length : Int) = (mid.length : Int) + 2 := by
        simp
        omega
      rw [hlen]
      have htwo : (a :: (mid ++ [z]) = [dquote] ∨ a :: (mid ++ [z]) = [dquote, dquote]) ↔
          (a = dquote ∧ mid = [] ∧ z = dquote) := by
        constructor
        · rintro (h1 | h1)
          · simp at h1
          · rcases mid with _ | ⟨m, ms⟩
            · simp at h1
              exact ⟨h1.1, rfl, h1.2⟩
            · simp at h1
        · rintro ⟨rfl, rfl, rfl⟩
          exact Or.inr rfl
      rw [htwo]
      have hmid : mid = [] ↔ (mid.length : Int) = 0 := by
        rw [← List.length_eq_zero]
        omega
      rw [hmid]
      by_cases ha : a = dquote
      · by_cases hz : z = dquote
        · simp only [ha, hz, if_true, true_and, and_true]
          omega
        · simp only [ha, hz, if_true, if_false, true_and, and_false, iff_false]
          omega
      · by_cases hz : z = dquote
        · simp only [ha, hz, if_true, if_false, false_and, iff_false]
          omega
        · simp only [ha, hz, if_false, false_and, iff_false]
          omega

/-- C18: the slice bounds of `jsByteToStr` are valid for every token but two, the single
double quote and the pair of double quotes: `jsByteToStr` panics on these two tokens and
on no other, and for a non-empty token the bounds `first`, `last` it computes satisfy
`0 <= first <= last <= len(val)` unless the token is one of the two, where, and only
where, `first` exceeds `last`. -/
theorem jsByteToStr_bounds (val : GoString) :
    (jsByteToStr val = none ↔ (val = [dquote] ∨ val = [dquote, dquote])) ∧
      (val ≠ [] →
        ((0 ≤ (jsBounds val).1 ∧ (jsBounds val).1 ≤ (jsBounds val).2 ∧
            (jsBounds val).2 ≤ (val.length : Int)) ↔
          ¬(val = [dquote] ∨ val = [dquote, dquote])) ∧
        ((jsBounds val).2 < (jsBounds val).1 ↔
          (val = [dquote] ∨ val = [dquote, dquote]))) := by
  constructor
  · by_cases h : val = []
    · subst h
      simp [jsByteToStr]
    · obtain ⟨h0, hl, hiff⟩ := jsBounds_facts val h
      rw [jsByteToStr_eq_goSlice val h, goSlice_eq_none_iff, ← hiff]
      constructor
      · intro hn
        by_contra hlt
        exact hn ⟨h0, by omega, hl⟩
      · intro hlt hv
        omega
  · intro h
    obtain ⟨h0, hl, hiff⟩ := jsBounds_facts val h
    refine ⟨?_, hiff⟩
    rw [← hiff]
    constructor
    · intro hv
      omega
    · intro hn
      exact ⟨h0, by omega, hl⟩

end Polcrawl
